import Mathlib

/-!
# Worker pool of the image processor (`multithreading.js`)

A shallow embedding of `runWorker`, `processWithPool` and the resolution of
`MAX_WORKERS`.  The Node event loop is modelled as a list of events, each one
macrotask: a worker event (`message`, `error`, `exit`), the firing of a
worker's timeout timer, or the firing of a pending retry timer.  Promise
callbacks run inside the macrotask that settles the promise, so the
`.then/.catch/.finally` chain of `processWithPool` is part of the step of the
event that settles the job's promise.  A promise settles at most once: a
later `resolve` or `reject` of a settled promise does nothing.
-/

namespace ImageProcessor

/-! ## Data model -/

/-- The `retry` block of `config.js`. -/
structure RetryConfig where
  enabled : Bool
  maxRetries : Nat
  delayMs : Nat
deriving DecidableEq, Repr

/-- The settings `multithreading.js` reads: the resolved `MAX_WORKERS`,
`config.workers.timeout` and `config.retry`. -/
structure Config where
  MAX_WORKERS : Int
  timeout : Nat
  retry : RetryConfig
deriving DecidableEq, Repr

/-- The object a worker posts to the main thread (`worker.js`, lines 285-301):
a success message carries `tasksCompleted`, a failure message carries `error`. -/
structure Data where
  success : Bool
  filename : String
  processingTime : Nat
  tasksCompleted : Option Nat
  error : Option String
deriving DecidableEq, Repr

/-- The three `Error` objects `runWorker` builds: `Worker timeout for f`,
`Worker error for f: m` and `Worker stopped with exit code c for f`. -/
inductive Failure where
  | timeout (filename : String)
  | workerError (filename : String) (message : String)
  | exitCode (code : Int) (filename : String)
deriving DecidableEq, Repr

/-- State of the `setTimeout` timer of one `runWorker` call. -/
inductive Timer where
  | armed
  | cleared
  | fired
deriving DecidableEq, Repr

/-- Effect of `clearTimeout`: an armed timer is cancelled, nothing else changes. -/
def Timer.clear : Timer → Timer
  | .armed => .cleared
  | t => t

/-- One call of `runWorker`: the `Worker` it creates, its timer and its promise.
`parent` is the `runWorker` call whose `resolve`/`reject` this call's promise is
chained to by `.then(resolve).catch(reject)`; it is `none` for the call made by
`processWithPool`, whose promise carries the pool's `.then/.catch/.finally`. -/
structure Worker where
  job : Nat
  filename : String
  attempt : Nat
  parent : Option Nat
  timer : Timer
  terminated : Bool
  exited : Bool
  settled : Bool
deriving DecidableEq, Repr

/-- The promise of a `runWorker` call becomes settled. -/
def Worker.markSettled (w : Worker) : Worker := { w with settled := true }

/-- A pending `setTimeout(..., config.retry.delayMs)` that will call
`runWorker(filepath, filename, attempt)` for the failed call `parent`. -/
structure RetryTimer where
  parent : Nat
  attempt : Nat
  delay : Nat
  fired : Bool
deriving DecidableEq, Repr

/-- An element of `results`: the posted data, tagged with the job it settled. -/
structure ResultEntry where
  job : Nat
  data : Data
deriving DecidableEq, Repr

/-- An element of `errors`: `{ filename: file, error: error.message }`, tagged with the job. -/
structure ErrorEntry where
  job : Nat
  filename : String
  error : Failure
deriving DecidableEq, Repr

/-- The variables of one `processWithPool` call and of the `runWorker` calls it
caused.  `resolved`, `resolveCalls`, `incLog` and `decLog` are ghost fields: the
value the pool's promise resolved with, the number of calls of its `resolve`
callback, and the jobs for which `activeWorkers++` / `activeWorkers--` ran. -/
structure Pool where
  results : List ResultEntry
  errors : List ErrorEntry
  activeWorkers : Int
  completedTasks : Nat
  currentIndex : Nat
  workers : List Worker
  retryTimers : List RetryTimer
  resolved : Option (List ResultEntry × List ErrorEntry)
  resolveCalls : Nat
  incLog : List Nat
  decLog : List Nat
deriving DecidableEq, Repr

/-- One macrotask of the event loop. -/
inductive Event where
  | message (w : Nat) (data : Data)
  | error (w : Nat) (message : String)
  | exit (w : Nat) (code : Int)
  | timeout (w : Nat)
  | retryDelay (i : Nat)
deriving DecidableEq, Repr

/-- What a failure handler of `runWorker` does: schedule `runWorker` with the
given attempt number after the given delay, or reject with the error. -/
inductive RetryStep where
  | retry (attempt : Nat) (delay : Nat)
  | reject (err : Failure)
deriving DecidableEq, Repr

/-- The value a promise is settled with. -/
inductive Settlement where
  | fulfilled (data : Data)
  | rejected (err : Failure)
deriving DecidableEq, Repr

/-! ## `MAX_WORKERS` (line 27) -/

/-- JavaScript truthiness of a number that may be `NaN`/`null`/`undefined` (`none`). -/
def truthy : Option Int → Bool
  | none => false
  | some n => n != 0

/-- Line 27: `parseInt(cliArgs.workers) || config.workers.maxWorkers || os.cpus().length`.
`cli` is the result of `parseInt` (`none` for `NaN`), `cfg` is
`config.workers.maxWorkers` (`none` for `null`). -/
def resolveMaxWorkers (cli cfg : Option Int) (cpus : Nat) : Int :=
  match cli with
  | some n => if truthy (some n) then n else
    match cfg with
    | some m => if truthy (some m) then m else (cpus : Int)
    | none => (cpus : Int)
  | none =>
    match cfg with
    | some m => if truthy (some m) then m else (cpus : Int)
    | none => (cpus : Int)

/-! ## `runWorker` (lines 38-108) -/

/-- Lines 39-48 and 50/64: a new `Worker`, an unsettled promise and an armed timer. -/
def runWorker (ws : List Worker) (job : Nat) (filename : String) (attempt : Nat)
    (parent : Option Nat) : List Worker :=
  ws ++ [{ job := job, filename := filename, attempt := attempt, parent := parent,
           timer := .armed, terminated := false, exited := false, settled := false }]

/-- Lines 52-63: the body of the timeout callback after `worker.terminate()`. -/
def timeoutHandler (cfg : Config) (filename : String) (attempt : Nat) : RetryStep :=
  if cfg.retry.enabled && decide (attempt < cfg.retry.maxRetries) then
    .retry (attempt + 1) cfg.retry.delayMs
  else
    .reject (.timeout filename)

/-- Lines 73-87: the body of the `error` handler after `clearTimeout`. -/
def errorHandler (cfg : Config) (filename : String) (attempt : Nat) (message : String) :
    RetryStep :=
  if cfg.retry.enabled && decide (attempt < cfg.retry.maxRetries) then
    .retry (attempt + 1) cfg.retry.delayMs
  else
    .reject (.workerError filename message)

/-- Lines 92-105: the body of the `exit` handler after `clearTimeout`; `none` when
`code` is `0`, where the handler does nothing more. -/
def exitHandler (cfg : Config) (filename : String) (attempt : Nat) (code : Int) :
    Option RetryStep :=
  if code != 0 then
    if cfg.retry.enabled && decide (attempt < cfg.retry.maxRetries) then
      some (.retry (attempt + 1) cfg.retry.delayMs)
    else
      some (.reject (.exitCode code filename))
  else
    none

/-- Calling `resolve` or `reject` of `runWorker` call `p`: a settled promise
ignores the call; otherwise the promise settles and its callbacks run, which for
a retry (`parent = some q`) call `resolve`/`reject` of `q` with the same value.
Returns the worker record of the `processWithPool`-level call whose promise got
settled, if the chain reached it.  The fuel bounds the length of the chain. -/
def settle : Nat → List Worker → Nat → List Worker × Option Worker
  | 0, ws, _ => (ws, none)
  | fuel + 1, ws, p =>
    match ws[p]? with
    | none => (ws, none)
    | some w =>
      if w.settled then (ws, none)
      else
        match w.parent with
        | none => (ws.set p w.markSettled, some w)
        | some q => settle fuel (ws.set p w.markSettled) q

/-! ## `processWithPool` (lines 115-160) -/

/-- Lines 129-155: the `while` loop of `startNextTask`.  Every iteration advances
`currentIndex`, so `imageFiles.length - currentIndex` iterations are enough. -/
def spawnLoop (cfg : Config) (imageFiles : List String) : Nat → Pool → Pool
  | 0, s => s
  | fuel + 1, s =>
    if s.activeWorkers < cfg.MAX_WORKERS ∧ s.currentIndex < imageFiles.length then
      match imageFiles[s.currentIndex]? with
      | none => s
      | some file =>
        spawnLoop cfg imageFiles fuel
          { s with
            currentIndex := s.currentIndex + 1
            activeWorkers := s.activeWorkers + 1
            workers := runWorker s.workers s.currentIndex file 1 none
            incLog := s.incLog ++ [s.currentIndex] }
    else s

/-- Lines 123-156: `startNextTask`. -/
def startNextTask (cfg : Config) (imageFiles : List String) (s : Pool) : Pool :=
  if imageFiles.length ≤ s.currentIndex ∧ s.activeWorkers = 0 then
    { s with
      resolveCalls := s.resolveCalls + 1
      resolved := match s.resolved with
        | some r => some r
        | none => some (s.results, s.errors) }
  else
    spawnLoop cfg imageFiles (imageFiles.length - s.currentIndex) s

/-- Lines 136-154: the `.then`, `.catch` and `.finally` callbacks attached to the
promise of the call `runWorker(filePath, file)` for the job of `root`. -/
def poolCallbacks (cfg : Config) (imageFiles : List String) (s : Pool) (root : Worker) :
    Settlement → Pool
  | .fulfilled data =>
    startNextTask cfg imageFiles
      { s with
        results := s.results ++ [{ job := root.job, data := data }]
        completedTasks := s.completedTasks + 1
        activeWorkers := s.activeWorkers - 1
        decLog := s.decLog ++ [root.job] }
  | .rejected err =>
    startNextTask cfg imageFiles
      { s with
        errors := s.errors ++ [{ job := root.job, filename := root.filename, error := err }]
        completedTasks := s.completedTasks + 1
        activeWorkers := s.activeWorkers - 1
        decLog := s.decLog ++ [root.job] }

/-- Calling `resolve(v)` / `reject(v)` of `runWorker` call `p` in pool state `s`. -/
def applySettle (cfg : Config) (imageFiles : List String) (s : Pool) (p : Nat)
    (v : Settlement) : Pool :=
  match settle (p + 1) s.workers p with
  | (ws, none) => { s with workers := ws }
  | (ws, some root) => poolCallbacks cfg imageFiles { s with workers := ws } root v

/-- The `if (retry) setTimeout(...) else reject(err)` of a failure handler of call `p`. -/
def applyRetryStep (cfg : Config) (imageFiles : List String) (s : Pool) (p : Nat) :
    RetryStep → Pool
  | .retry attempt delay =>
    { s with retryTimers := s.retryTimers ++
        [{ parent := p, attempt := attempt, delay := delay, fired := false }] }
  | .reject err => applySettle cfg imageFiles s p (.rejected err)

/-- One macrotask.  A worker emits nothing after its `exit` event, a timer fires
only while armed, and a retry timer fires once; an event that cannot occur in
the state leaves it unchanged. -/
def step (cfg : Config) (imageFiles : List String) (s : Pool) : Event → Pool
  | .message p data =>
    match s.workers[p]? with
    | none => s
    | some w =>
      if w.exited then s
      else
        applySettle cfg imageFiles
          { s with workers := s.workers.set p { w with timer := w.timer.clear } }
          p (.fulfilled data)
  | .error p message =>
    match s.workers[p]? with
    | none => s
    | some w =>
      if w.exited then s
      else
        applyRetryStep cfg imageFiles
          { s with workers := s.workers.set p { w with timer := w.timer.clear } }
          p (errorHandler cfg w.filename w.attempt message)
  | .exit p code =>
    match s.workers[p]? with
    | none => s
    | some w =>
      if w.exited then s
      else
        match exitHandler cfg w.filename w.attempt code with
        | none =>
          { s with workers := s.workers.set p { w with timer := w.timer.clear, exited := true } }
        | some r =>
          applyRetryStep cfg imageFiles
            { s with
              workers := s.workers.set p { w with timer := w.timer.clear, exited := true } }
            p r
  | .timeout p =>
    match s.workers[p]? with
    | none => s
    | some w =>
      if w.timer = .armed then
        applyRetryStep cfg imageFiles
          { s with workers := s.workers.set p { w with timer := .fired, terminated := true } }
          p (timeoutHandler cfg w.filename w.attempt)
      else s
  | .retryDelay i =>
    match s.retryTimers[i]? with
    | none => s
    | some t =>
      if t.fired then s
      else
        match s.workers[t.parent]? with
        | none => s
        | some pw =>
          { s with
            retryTimers := s.retryTimers.set i { t with fired := true }
            workers := runWorker s.workers pw.job pw.filename t.attempt (some t.parent) }

/-- Lines 116-120: the variables of `processWithPool` before the first `startNextTask`. -/
def emptyPool : Pool :=
  { results := [], errors := [], activeWorkers := 0, completedTasks := 0, currentIndex := 0,
    workers := [], retryTimers := [], resolved := none, resolveCalls := 0,
    incLog := [], decLog := [] }

/-- Lines 115-160: `processWithPool(imageFiles)` up to its first return to the event loop. -/
def processWithPool (cfg : Config) (imageFiles : List String) : Pool :=
  startNextTask cfg imageFiles emptyPool

/-- The state of the pool after the events `es`, in this order. -/
def run (cfg : Config) (imageFiles : List String) (es : List Event) : Pool :=
  es.foldl (step cfg imageFiles) (processWithPool cfg imageFiles)

/-- The settings of `config.js` with a given resolved `MAX_WORKERS`. -/
def defaultConfig (maxWorkers : Int) : Config :=
  { MAX_WORKERS := maxWorkers, timeout := 60000,
    retry := { enabled := true, maxRetries := 2, delayMs := 1000 } }

/-- The success message of `worker.js` (lines 285-291) for file `f`. -/
def successMessage (f : String) : Data :=
  { success := true, filename := f, processingTime := 10, tasksCompleted := some 21,
    error := none }

/-- The failure message of `worker.js` (lines 296-301) for file `f`. -/
def failureMessage (f : String) (err : String) : Data :=
  { success := false, filename := f, processingTime := 10, tasksCompleted := none,
    error := some err }

/-! ## `main` (lines 165-265), up to the call of `processWithPool` -/

/-- How `main` starts: a fatal exit with `process.exit(1)`, the early
`process.exit(0)` when no image is found, or the pool it starts. -/
inductive MainOutcome where
  | fatal (code : Nat)
  | noImages
  | started (pool : Pool)
deriving DecidableEq, Repr

/-- Lines 27 and 187-225: `MAX_WORKERS` is resolved when the module loads; `main`
exits with code 1 when the input directory is missing (lines 189-195), with code
0 when it holds no image (lines 202-206), and otherwise calls `processWithPool`. -/
def main (cliWorkers cfgWorkers : Option Int) (cpus : Nat) (inputDirExists : Bool)
    (imageFiles : List String) (timeout : Nat) (retry : RetryConfig) : MainOutcome :=
  if inputDirExists = false then .fatal 1
  else if imageFiles.length = 0 then .noImages
  else
    .started (processWithPool
      { MAX_WORKERS := resolveMaxWorkers cliWorkers cfgWorkers cpus,
        timeout := timeout, retry := retry } imageFiles)

/-! ## Invariant of the pool -/

/-- Unsettled promise of a `runWorker` call made by `processWithPool`. -/
def Worker.active (w : Worker) : Bool := w.parent.isNone && !w.settled

/-- The `runWorker` call made by `processWithPool` for job `j`. -/
def Worker.rootOf (j : Nat) (w : Worker) : Bool := w.parent.isNone && decide (w.job = j)

/-- Settled promise of the `runWorker` call made by `processWithPool` for job `j`. -/
def Worker.doneOf (j : Nat) (w : Worker) : Bool :=
  w.parent.isNone && (w.settled && decide (w.job = j))

/-- Number of entries of job `j` in `results ++ errors`. -/
def Pool.entries (s : Pool) (j : Nat) : Nat :=
  (s.results.map ResultEntry.job ++ s.errors.map ErrorEntry.job).count j

/-- The termination condition tested at the top of `startNextTask` (line 124). -/
def Pool.drained (imageFiles : List String) (s : Pool) : Prop :=
  imageFiles.length ≤ s.currentIndex ∧ s.activeWorkers = 0

/-- Bookkeeping invariant: `activeWorkers` counts the unsettled promises of the
calls made by `processWithPool`, jobs below the cursor have exactly one such
call, and the terminal entries of a job are those of its settled promise. -/
structure Counts (cfg : Config) (imageFiles : List String) (s : Pool) : Prop where
  active_eq : s.activeWorkers = ((s.workers.countP Worker.active : Nat) : Int)
  bound : 0 ≤ cfg.MAX_WORKERS → s.activeWorkers ≤ cfg.MAX_WORKERS
  index_le : s.currentIndex ≤ imageFiles.length
  roots : ∀ j, s.workers.countP (Worker.rootOf j) = if j < s.currentIndex then 1 else 0
  entries : ∀ j, s.entries j = s.workers.countP (Worker.doneOf j)
  incs : ∀ j, s.incLog.count j = if j < s.currentIndex then 1 else 0
  decs : ∀ j, s.decLog.count j = s.entries j
  parents : ∀ p q : Nat, (s.workers.map Worker.parent)[p]? = some (some q) → q < p

/-- The `resolve` callback has not been called and the pool is not drained, or
it has been called once, with the final `results` and `errors`, and the pool
is drained. -/
def Once (imageFiles : List String) (s : Pool) : Prop :=
  (s.resolveCalls = 0 ∧ s.resolved = none ∧ ¬ s.drained imageFiles) ∨
  (s.resolveCalls = 1 ∧ s.resolved = some (s.results, s.errors) ∧ s.drained imageFiles)

/-- The pool invariant: bookkeeping, and `resolve` called at most once. -/
def Inv (cfg : Config) (imageFiles : List String) (s : Pool) : Prop :=
  Counts cfg imageFiles s ∧ Once imageFiles s

/-! ## `worker.js`: `processImage` (lines 14-306) -/

/-- Line 25: `filename.split('.')[0]`, the text before the first dot (the whole
name when it has no dot). -/
def firstSegment (filename : String) : String :=
  String.mk (filename.data.takeWhile (fun c => c != '.'))

/-- Line 25: `path.join(outputDir, filename.split('.')[0])`.  `join` stands for
Node's `path.join`, which is not part of the repository. -/
def outputSubDirPath (join : String → String → String) (outputDir filename : String) :
    String :=
  join outputDir (firstSegment filename)

/-- The keys of `config.imageProcessing.transformations` in `config.js`
(lines 37-158), in the order of the file. -/
def configKeys : List String :=
  ["thumbnail", "small", "medium", "large", "xlarge", "grayscale", "blur", "sepia", "invert",
   "brightness", "contrast", "opacity", "fade", "rotate", "rotate180", "rotate270",
   "flipHorizontal", "flipVertical", "pixelate", "posterize", "normalize", "colorTone"]

/-- The `transformations` object of `config.js`: every key is present and enabled.
A transformations object is read through `transformations[k]?.enabled`, so it is
modelled by the truth value of that expression for each key `k`. -/
def defaultTransformations (k : String) : Bool := decide (k ∈ configKeys)

/-- Line 37: the sizes the `forEach` of the resize block runs through. -/
def resizeKeys : List String := ["thumbnail", "small", "medium", "large"]

/-- Lines 51-254: the keys of the `if (transformations.k?.enabled)` blocks that
follow the resize block, in the order of the file. -/
def singleKeys : List String :=
  ["grayscale", "blur", "sepia", "invert", "rotate", "rotate180", "rotate270",
   "flipHorizontal", "flipVertical", "brightness", "contrast", "opacity", "fade",
   "pixelate", "posterize", "normalize", "colorTone"]

/-- Lines 33-254: the names of the tasks pushed to `tasks`, in order. -/
def taskNames (enabled : String → Bool) : List String :=
  resizeKeys.filter enabled ++ singleKeys.filter enabled

/-- How `await task.operation()` ends: normally, or by throwing an `Error`
with the given message. -/
inductive Operation where
  | ok
  | threw (message : String)
deriving DecidableEq, Repr

/-- An element of `tasks`: its name and the way its operation ends. -/
structure Task where
  name : String
  operation : Operation
deriving DecidableEq, Repr

/-- Lines 33-254: the task list, given how the operation of each name ends. -/
def buildTasks (enabled : String → Bool) (ops : String → Operation) : List Task :=
  (taskNames enabled).map (fun n => { name := n, operation := ops n })

/-- The object an element of `tasks.map(...)` resolves to (lines 261 and 264). -/
structure TaskResult where
  name : String
  success : Bool
  error : Option String
deriving DecidableEq, Repr

/-- An element of the array `Promise.allSettled` resolves to. -/
inductive Settled where
  | fulfilled (value : TaskResult)
  | rejected (reason : String)
deriving DecidableEq, Repr

/-- Lines 258-266: the `async (task) => ...` callback; its `try/catch` turns a
thrown error into a fulfilled `{ name, success: false, error }`. -/
def runTask (t : Task) : Settled :=
  match t.operation with
  | .ok => .fulfilled { name := t.name, success := true, error := none }
  | .threw m => .fulfilled { name := t.name, success := false, error := some m }

/-- Line 270: the predicate of `results.filter(...)`. -/
def isFailure : Settled → Bool
  | .rejected _ => true
  | .fulfilled v => !v.success

/-- Lines 272-278: the text for one failure. -/
def describeFailure : Settled → String
  | .rejected reason => reason
  | .fulfilled v =>
    v.name ++ " (" ++ (match v.error with
      | some e => e
      | none => "undefined") ++ ")"

/-- What a worker thread did: the messages it posted and its exit code. -/
structure WorkerRun where
  posted : List Data
  exitCode : Int
deriving DecidableEq, Repr

/-- Lines 292-304: the `catch` block, for an error with the given message. -/
def postFailure (filename : String) (processingTime : Nat) (message : String) : WorkerRun :=
  { posted := [{ success := false,
                 filename := if filename = "" then "unknown" else filename,
                 error := some message, processingTime := processingTime,
                 tasksCompleted := none }],
    exitCode := 1 }

/-- Lines 256-291: run all tasks, then throw if any failed and post the success
message otherwise. -/
def reportTasks (filename : String) (processingTime : Nat) (tasks : List Task) : WorkerRun :=
  if 0 < ((tasks.map runTask).filter isFailure).length then
    postFailure filename processingTime
      ("Failed to process tasks: "
        ++ ", ".intercalate (((tasks.map runTask).filter isFailure).map describeFailure))
  else
    { posted := [{ success := true, filename := filename, processingTime := processingTime,
                   tasksCompleted := some tasks.length, error := none }],
      exitCode := 0 }

/-- Lines 14-306: `processImage`.  `loadError` is the message of the error
thrown by `mkdir` or `Jimp.read`, if any; `ops` tells how the operation of each
task ends. -/
def processImage (imagePath filename outputDir : String) (loadError : Option String)
    (enabled : String → Bool) (ops : String → Operation) (processingTime : Nat) : WorkerRun :=
  if imagePath = "" ∨ filename = "" ∨ outputDir = "" then
    postFailure filename processingTime
      "Missing required workerData: imagePath, filename, and outputDir"
  else
    match loadError with
    | some e => postFailure filename processingTime e
    | none => reportTasks filename processingTime (buildTasks enabled ops)

/-- No `runWorker` call outside the set `D` is a retry of a call in `D`. -/
def Closed (D : List Nat) (ws : List Worker) : Prop :=
  ∀ (i : Nat) (v : Worker) (q : Nat), ws[i]? = some v → v.parent = some q → q ∈ D → i ∈ D

/-- The `runWorker` calls listed in `D` hold the given records, no call outside
`D` is a retry of one of them, and every retry timer set by one of them has fired. -/
def Dead (D : List (Nat × Worker)) (s : Pool) : Prop :=
  (∀ d ∈ D, s.workers[d.1]? = some d.2) ∧
  Closed (D.map Prod.fst) s.workers ∧
  (∀ t ∈ s.retryTimers, t.parent ∈ D.map Prod.fst → t.fired = true)

/-! ## Lemmas on promises and on the bookkeeping invariant -/

@[simp] theorem markSettled_parent (w : Worker) : w.markSettled.parent = w.parent := rfl
@[simp] theorem markSettled_job (w : Worker) : w.markSettled.job = w.job := rfl
@[simp] theorem markSettled_filename (w : Worker) : w.markSettled.filename = w.filename := rfl
@[simp] theorem markSettled_settled (w : Worker) : w.markSettled.settled = true := rfl

theorem countP_set_same {α : Type} (f : α → Bool) (l : List α) (i : Nat) (a b : α)
    (h : l[i]? = some a) (hf : f b = f a) : (l.set i b).countP f = l.countP f := by
  obtain ⟨hi, rfl⟩ := List.getElem?_eq_some_iff.mp h
  rw [List.countP_set f l i b hi, hf]
  have := List.boole_getElem_le_countP f l i hi
  omega

theorem countP_set_flip {α : Type} (f : α → Bool) (l : List α) (i : Nat) (a b : α)
    (h : l[i]? = some a) :
    (l.set i b).countP f + (if f a then 1 else 0) = l.countP f + (if f b then 1 else 0) := by
  obtain ⟨hi, rfl⟩ := List.getElem?_eq_some_iff.mp h
  rw [List.countP_set f l i b hi]
  have := List.boole_getElem_le_countP f l i hi
  omega

/-- What a call of `resolve`/`reject` does to the number of workers satisfying a
predicate `f` that holds only of calls made by `processWithPool`. -/
theorem settle_countP (f : Worker → Bool) (hf : ∀ w, f w = true → w.parent = none) :
    ∀ (fuel : Nat) (ws : List Worker) (p : Nat) (ws1 : List Worker) (r : Option Worker),
      settle fuel ws p = (ws1, r) →
      match r with
      | none => ws1.countP f = ws.countP f
      | some rw => rw.parent = none ∧ rw.settled = false ∧ rw ∈ ws ∧
          ws1.countP f + (if f rw then 1 else 0)
            = ws.countP f + (if f rw.markSettled then 1 else 0) := by
  intro fuel
  induction fuel with
  | zero =>
    intro ws p ws1 r h
    simp only [settle, Prod.mk.injEq] at h
    obtain ⟨rfl, rfl⟩ := h
    rfl
  | succ n ih =>
    intro ws p ws1 r h
    unfold settle at h
    rcases Option.eq_none_or_eq_some ws[p]? with hw | ⟨w, hw⟩
    · simp only [hw, Prod.mk.injEq] at h
      obtain ⟨rfl, rfl⟩ := h
      rfl
    · simp only [hw] at h
      by_cases hs : w.settled = true
      · simp only [hs, if_true, Prod.mk.injEq] at h
        obtain ⟨rfl, rfl⟩ := h
        rfl
      · simp only [hs, if_false] at h
        rcases Option.eq_none_or_eq_some w.parent with hp | ⟨q, hp⟩
        · simp only [hp, Prod.mk.injEq] at h
          obtain ⟨rfl, rfl⟩ := h
          refine ⟨hp, by simpa using hs, List.getElem?_mem hw, ?_⟩
          exact countP_set_flip f ws p w _ hw
        · simp only [hp] at h
          have h1 := ih _ _ _ _ h
          have hfw : f w = false := by
            cases hfw : f w with
            | false => rfl
            | true => have := hf w hfw; rw [hp] at this; cases this
          have hfw2 : f w.markSettled = false := by
            cases hfw2 : f w.markSettled with
            | false => rfl
            | true => have := hf _ hfw2; simp [hp] at this
          have hc : (ws.set p w.markSettled).countP f = ws.countP f :=
            countP_set_same f ws p w _ hw (by rw [hfw, hfw2])
          cases r with
          | none => rw [← hc]; exact h1
          | some rw =>
            obtain ⟨a, b, c, d⟩ := h1
            refine ⟨a, b, ?_, by rw [← hc]; exact d⟩
            rcases List.mem_or_eq_of_mem_set c with c | c
            · exact c
            · exfalso; rw [c] at b; simp at b

/-- A call of `resolve`/`reject` changes no `parent` link and adds no worker. -/
theorem settle_parents :
    ∀ (fuel : Nat) (ws : List Worker) (p : Nat),
      (settle fuel ws p).1.map Worker.parent = ws.map Worker.parent := by
  intro fuel
  induction fuel with
  | zero => intro ws p; rfl
  | succ n ih =>
    intro ws p
    unfold settle
    rcases Option.eq_none_or_eq_some ws[p]? with hw | ⟨w, hw⟩
    · simp only [hw]
    · simp only [hw]
      have hset : (ws.set p w.markSettled).map Worker.parent = ws.map Worker.parent := by
        rw [List.map_set]
        apply List.ext_getElem?
        intro i
        by_cases hi : p = i
        · subst hi
          obtain ⟨hl, hh⟩ := List.getElem?_eq_some_iff.mp hw
          simp [List.getElem?_set, hl, hh]
        · simp [List.getElem?_set_ne hi]
      by_cases hs : w.settled = true
      · rw [if_pos hs]
      · rw [if_neg hs]
        rcases Option.eq_none_or_eq_some w.parent with hp | ⟨q, hp⟩
        · rw [hp]; exact hset
        · rw [hp]; simp only []; rw [ih]; exact hset

theorem Counts.setWorker {cfg : Config} {imageFiles : List String} {s : Pool}
    (h : Counts cfg imageFiles s) (p : Nat) (w w1 : Worker) (hw : s.workers[p]? = some w)
    (hp : w1.parent = w.parent) (hs : w1.settled = w.settled) (hj : w1.job = w.job) :
    Counts cfg imageFiles { s with workers := s.workers.set p w1 } := by
  have key : ∀ f : Worker → Bool, f w1 = f w →
      (s.workers.set p w1).countP f = s.workers.countP f :=
    fun f hf => countP_set_same f s.workers p w w1 hw hf
  refine ⟨?_, h.bound, h.index_le, ?_, ?_, h.incs, h.decs, ?_⟩
  · show s.activeWorkers = _
    rw [key _ (by simp [Worker.active, hp, hs])]; exact h.active_eq
  · intro j
    show (s.workers.set p w1).countP _ = _
    rw [key _ (by simp [Worker.rootOf, hp, hj])]; exact h.roots j
  · intro j
    show s.entries j = (s.workers.set p w1).countP _
    rw [key _ (by simp [Worker.doneOf, hp, hs, hj])]; exact h.entries j
  · intro a b hab
    apply h.parents a b
    have : (s.workers.set p w1).map Worker.parent = s.workers.map Worker.parent := by
      rw [List.map_set]
      apply List.ext_getElem?
      intro i
      by_cases hi : p = i
      · subst hi
        obtain ⟨hl, hh⟩ := List.getElem?_eq_some_iff.mp hw
        simp [List.getElem?_set, hl, hh, hp]
      · simp [List.getElem?_set_ne hi]
    rw [← this]; exact hab

theorem Counts.setTimers {cfg : Config} {imageFiles : List String} {s : Pool}
    (h : Counts cfg imageFiles s) (ts : List RetryTimer) :
    Counts cfg imageFiles { s with retryTimers := ts } :=
  ⟨h.active_eq, h.bound, h.index_le, h.roots, h.entries, h.incs, h.decs, h.parents⟩

theorem Counts.spawnRetry {cfg : Config} {imageFiles : List String} {s : Pool}
    (h : Counts cfg imageFiles s) (job : Nat) (filename : String) (attempt q : Nat)
    (hq : q < s.workers.length) :
    Counts cfg imageFiles
      { s with workers := runWorker s.workers job filename attempt (some q) } := by
  refine ⟨?_, h.bound, h.index_le, ?_, ?_, h.incs, h.decs, ?_⟩
  · show s.activeWorkers = _
    simp [runWorker, Worker.active, h.active_eq]
  · intro j
    show (runWorker s.workers job filename attempt (some q)).countP _ = _
    simp [runWorker, Worker.rootOf, h.roots j]
  · intro j
    show s.entries j = (runWorker s.workers job filename attempt (some q)).countP _
    simp [runWorker, Worker.doneOf, h.entries j]
  · intro a b hab
    simp only [runWorker, List.map_append, List.map_cons, List.map_nil] at hab
    by_cases ha : a < (s.workers.map Worker.parent).length
    · rw [List.getElem?_append_left ha] at hab
      exact h.parents a b hab
    · rw [List.getElem?_append_right (Nat.le_of_not_lt ha)] at hab
      have hlen : (s.workers.map Worker.parent).length = s.workers.length := by simp
      rcases Nat.eq_zero_or_pos (a - (s.workers.map Worker.parent).length) with h0 | h0
      · rw [h0] at hab
        simp at hab
        omega
      · obtain ⟨k, hk⟩ := Nat.exists_eq_succ_of_ne_zero (Nat.pos_iff_ne_zero.mp h0)
        rw [hk] at hab
        simp at hab

/-- One iteration of the `while` loop of `startNextTask` keeps the bookkeeping invariant. -/
theorem Counts.spawnRoot {cfg : Config} {imageFiles : List String} {s : Pool}
    (h : Counts cfg imageFiles s) (file : String)
    (hlt : s.activeWorkers < cfg.MAX_WORKERS) (hidx : s.currentIndex < imageFiles.length) :
    Counts cfg imageFiles
      { s with
        currentIndex := s.currentIndex + 1
        activeWorkers := s.activeWorkers + 1
        workers := runWorker s.workers s.currentIndex file 1 none
        incLog := s.incLog ++ [s.currentIndex] } := by
  refine ⟨?_, ?_, ?_, ?_, ?_, ?_, h.decs, ?_⟩
  · show s.activeWorkers + 1 = _
    simp [runWorker, Worker.active, h.active_eq]
  · intro _
    show s.activeWorkers + 1 ≤ _
    omega
  · show s.currentIndex + 1 ≤ _
    omega
  · intro j
    show (runWorker s.workers s.currentIndex file 1 none).countP _
      = if j < s.currentIndex + 1 then 1 else 0
    simp only [runWorker, List.countP_append, h.roots j, List.countP_cons, List.countP_nil,
      Worker.rootOf, Option.isNone_none, Bool.true_and, decide_eq_true_eq]
    by_cases h1 : j < s.currentIndex
    · have h2 : ¬ s.currentIndex = j := by omega
      have h3 : j < s.currentIndex + 1 := by omega
      simp [h1, h2, h3]
    · by_cases h2 : s.currentIndex = j
      · have h3 : j < s.currentIndex + 1 := by omega
        simp [h1, h2, h3]
      · have h3 : ¬ j < s.currentIndex + 1 := by omega
        simp [h1, h2, h3]
  · intro j
    show s.entries j = (runWorker s.workers s.currentIndex file 1 none).countP _
    simp [runWorker, Worker.doneOf, h.entries j]
  · intro j
    show (s.incLog ++ [s.currentIndex]).count j = if j < s.currentIndex + 1 then 1 else 0
    rw [List.count_append, h.incs j]
    by_cases h1 : j < s.currentIndex
    · have h2 : ¬ s.currentIndex = j := by omega
      have h3 : j < s.currentIndex + 1 := by omega
      simp [h1, h2, h3, List.count_cons]
    · by_cases h2 : s.currentIndex = j
      · have h3 : j < s.currentIndex + 1 := by omega
        simp [h1, h2, h3, List.count_cons]
      · have h3 : ¬ j < s.currentIndex + 1 := by omega
        simp [h1, h2, h3, List.count_cons]
  · intro a b hab
    simp only [runWorker, List.map_append, List.map_cons, List.map_nil] at hab
    by_cases ha : a < (s.workers.map Worker.parent).length
    · rw [List.getElem?_append_left ha] at hab
      exact h.parents a b hab
    · rw [List.getElem?_append_right (Nat.le_of_not_lt ha)] at hab
      rcases Nat.eq_zero_or_pos (a - (s.workers.map Worker.parent).length) with h0 | h0
      · rw [h0] at hab
        simp at hab
      · obtain ⟨k, hk⟩ := Nat.exists_eq_succ_of_ne_zero (Nat.pos_iff_ne_zero.mp h0)
        rw [hk] at hab
        simp at hab

/-- What the `while` loop of `startNextTask` leaves unchanged, and what it achieves. -/
theorem spawnLoop_spec (cfg : Config) (imageFiles : List String) :
    ∀ (fuel : Nat) (s : Pool), Counts cfg imageFiles s →
      Counts cfg imageFiles (spawnLoop cfg imageFiles fuel s) ∧
      (spawnLoop cfg imageFiles fuel s).results = s.results ∧
      (spawnLoop cfg imageFiles fuel s).errors = s.errors ∧
      (spawnLoop cfg imageFiles fuel s).resolveCalls = s.resolveCalls ∧
      (spawnLoop cfg imageFiles fuel s).resolved = s.resolved ∧
      (spawnLoop cfg imageFiles fuel s).retryTimers = s.retryTimers ∧
      (spawnLoop cfg imageFiles fuel s = s ∨
        s.activeWorkers + 1 ≤ (spawnLoop cfg imageFiles fuel s).activeWorkers) ∧
      (imageFiles.length - s.currentIndex ≤ fuel →
        ¬ ((spawnLoop cfg imageFiles fuel s).activeWorkers < cfg.MAX_WORKERS ∧
            (spawnLoop cfg imageFiles fuel s).currentIndex < imageFiles.length)) := by
  intro fuel
  induction fuel with
  | zero =>
    intro s h
    refine ⟨h, rfl, rfl, rfl, rfl, rfl, Or.inl rfl, ?_⟩
    intro hf
    show ¬ (s.activeWorkers < _ ∧ s.currentIndex < _)
    omega
  | succ n ih =>
    intro s h
    unfold spawnLoop
    by_cases hc : s.activeWorkers < cfg.MAX_WORKERS ∧ s.currentIndex < imageFiles.length
    · rw [if_pos hc]
      obtain ⟨file, hfile⟩ : ∃ file, imageFiles[s.currentIndex]? = some file :=
        ⟨imageFiles.get ⟨s.currentIndex, hc.2⟩, List.getElem?_eq_getElem hc.2⟩
      simp only [hfile]
      obtain ⟨a, b, c, d, e, f, g, k⟩ := ih _ (h.spawnRoot file hc.1 hc.2)
      refine ⟨a, b, c, d, e, f, Or.inr ?_, ?_⟩
      · rcases g with g | g
        · rw [g]
        · have : s.activeWorkers + 1 + 1 ≤ _ := g
          omega
      · intro hf
        apply k
        show imageFiles.length - (s.currentIndex + 1) ≤ n
        omega
    · rw [if_neg hc]
      exact ⟨h, rfl, rfl, rfl, rfl, rfl, Or.inl rfl, fun _ => hc⟩

/-- The body of `startNextTask`, run before `resolve` was ever called, keeps the
bookkeeping invariant and establishes `Once`; it leaves `results` and `errors` alone. -/
theorem startNextTask_spec (cfg : Config) (imageFiles : List String) (s : Pool)
    (h : Counts cfg imageFiles s) (h0 : s.resolveCalls = 0) (h1 : s.resolved = none) :
    Counts cfg imageFiles (startNextTask cfg imageFiles s) ∧
    Once imageFiles (startNextTask cfg imageFiles s) ∧
    (startNextTask cfg imageFiles s).results = s.results ∧
    (startNextTask cfg imageFiles s).errors = s.errors ∧
    (startNextTask cfg imageFiles s).retryTimers = s.retryTimers := by
  unfold startNextTask
  by_cases hc : imageFiles.length ≤ s.currentIndex ∧ s.activeWorkers = 0
  · rw [if_pos hc]
    refine ⟨⟨h.active_eq, h.bound, h.index_le, h.roots, h.entries, h.incs, h.decs, h.parents⟩,
      Or.inr ⟨?_, ?_, hc⟩, rfl, rfl, rfl⟩
    · show s.resolveCalls + 1 = 1
      omega
    · show (match s.resolved with
        | some r => some r
        | none => some (s.results, s.errors)) = some (s.results, s.errors)
      rw [h1]
  · rw [if_neg hc]
    obtain ⟨a, b, c, d, e, f, g, _⟩ :=
      spawnLoop_spec cfg imageFiles (imageFiles.length - s.currentIndex) s h
    refine ⟨a, Or.inl ⟨by rw [d, h0], by rw [e, h1], ?_⟩, b, c, f⟩
    rcases g with g | g
    · rw [g]; exact hc
    · intro hd
      have hpos : (0 : Int) ≤ s.activeWorkers := by rw [h.active_eq]; exact Int.ofNat_nonneg _
      have := hd.2
      omega

theorem active_pred (w : Worker) (h : Worker.active w = true) : w.parent = none := by
  simp only [Worker.active, Bool.and_eq_true, Option.isNone_iff_eq_none] at h
  exact h.1

theorem rootOf_pred (j : Nat) (w : Worker) (h : Worker.rootOf j w = true) : w.parent = none := by
  simp only [Worker.rootOf, Bool.and_eq_true, Option.isNone_iff_eq_none] at h
  exact h.1

theorem doneOf_pred (j : Nat) (w : Worker) (h : Worker.doneOf j w = true) : w.parent = none := by
  simp only [Worker.doneOf, Bool.and_eq_true, Option.isNone_iff_eq_none] at h
  exact h.1

/-- A call of `resolve`/`reject` that reaches the promise of a pool-level call
finds `activeWorkers` positive. -/
theorem Counts.active_pos {cfg : Config} {imageFiles : List String} {s : Pool}
    (h : Counts cfg imageFiles s) (p : Nat) (ws1 : List Worker) (root : Worker)
    (hst : settle (p + 1) s.workers p = (ws1, some root)) : 1 ≤ s.activeWorkers := by
  obtain ⟨hp, hs, hm, ha⟩ := settle_countP Worker.active active_pred _ _ _ _ _ hst
  have hact : Worker.active root = true := by simp [Worker.active, hp, hs]
  have hact2 : Worker.active root.markSettled = false := by simp [Worker.active]
  rw [hact, hact2] at ha
  simp only [if_true, Bool.false_eq_true, if_false, Nat.add_zero] at ha
  rw [h.active_eq]; omega

/-- The state between `activeWorkers--` and the call of `startNextTask` in the
`.finally` callback keeps the bookkeeping invariant. -/
theorem Counts.settled {cfg : Config} {imageFiles : List String} {s : Pool}
    (h : Counts cfg imageFiles s) (p : Nat) (ws1 : List Worker) (root : Worker)
    (hst : settle (p + 1) s.workers p = (ws1, some root))
    (rs : List ResultEntry) (es : List ErrorEntry) (c : Nat)
    (hent : ∀ j, (rs.map ResultEntry.job ++ es.map ErrorEntry.job).count j
      = s.entries j + if root.job = j then 1 else 0) :
    Counts cfg imageFiles
      { s with
        workers := ws1, results := rs, errors := es, completedTasks := c
        activeWorkers := s.activeWorkers - 1
        decLog := s.decLog ++ [root.job] } ∧ 1 ≤ s.activeWorkers := by
  obtain ⟨hp, hs, hm, ha⟩ := settle_countP Worker.active active_pred _ _ _ _ _ hst
  have hact : Worker.active root = true := by simp [Worker.active, hp, hs]
  have hact2 : Worker.active root.markSettled = false := by simp [Worker.active]
  rw [hact, hact2] at ha
  simp only [if_true, Bool.false_eq_true, if_false, Nat.add_zero] at ha
  have hge : 1 ≤ s.activeWorkers := by rw [h.active_eq]; omega
  refine ⟨⟨?_, ?_, h.index_le, ?_, ?_, h.incs, ?_, ?_⟩, hge⟩
  · show s.activeWorkers - 1 = ((ws1.countP Worker.active : Nat) : Int)
    rw [h.active_eq]; omega
  · intro h0
    show s.activeWorkers - 1 ≤ _
    have := h.bound h0
    omega
  · intro j
    show ws1.countP (Worker.rootOf j) = _
    obtain ⟨_, _, _, hr⟩ := settle_countP (Worker.rootOf j) (rootOf_pred j) _ _ _ _ _ hst
    have e : Worker.rootOf j root.markSettled = Worker.rootOf j root := by simp [Worker.rootOf]
    rw [e] at hr
    rw [← h.roots j]; omega
  · intro j
    show (rs.map ResultEntry.job ++ es.map ErrorEntry.job).count j = ws1.countP (Worker.doneOf j)
    obtain ⟨_, _, _, hr⟩ := settle_countP (Worker.doneOf j) (doneOf_pred j) _ _ _ _ _ hst
    have e1 : Worker.doneOf j root = false := by simp [Worker.doneOf, hs]
    have e2 : Worker.doneOf j root.markSettled = decide (root.job = j) := by
      simp [Worker.doneOf, hp]
    rw [e1, e2] at hr
    rw [hent j, h.entries j]
    by_cases hj : root.job = j <;> simp [hj] at hr ⊢ <;> omega
  · intro j
    show (s.decLog ++ [root.job]).count j
      = (rs.map ResultEntry.job ++ es.map ErrorEntry.job).count j
    rw [hent j, List.count_append, h.decs j]
    by_cases hj : root.job = j <;> simp [hj, List.count_cons]
  · intro a b hab
    apply h.parents a b
    have := settle_parents (p + 1) s.workers p
    rw [hst] at this
    rw [← this]; exact hab

theorem inv_applySettle {cfg : Config} {imageFiles : List String} {s : Pool}
    (h : Inv cfg imageFiles s) (p : Nat) (v : Settlement) :
    Inv cfg imageFiles (applySettle cfg imageFiles s p v) := by
  obtain ⟨hC, hO⟩ := h
  unfold applySettle
  rcases hst : settle (p + 1) s.workers p with ⟨ws1, r⟩
  cases r with
  | none =>
    simp only []
    refine ⟨⟨?_, hC.bound, hC.index_le, ?_, ?_, hC.incs, hC.decs, ?_⟩, hO⟩
    · show s.activeWorkers = ((ws1.countP Worker.active : Nat) : Int)
      have := settle_countP Worker.active active_pred _ _ _ _ _ hst
      simp only [] at this
      rw [this]; exact hC.active_eq
    · intro j
      show ws1.countP (Worker.rootOf j) = _
      have := settle_countP (Worker.rootOf j) (rootOf_pred j) _ _ _ _ _ hst
      simp only [] at this
      rw [this]; exact hC.roots j
    · intro j
      show s.entries j = ws1.countP (Worker.doneOf j)
      have := settle_countP (Worker.doneOf j) (doneOf_pred j) _ _ _ _ _ hst
      simp only [] at this
      rw [this]; exact hC.entries j
    · intro a b hab
      apply hC.parents a b
      have := settle_parents (p + 1) s.workers p
      rw [hst] at this
      rw [← this]; exact hab
  | some root =>
    simp only []
    have pre : s.resolveCalls = 0 ∧ s.resolved = none := by
      rcases hO with hO | hO
      · exact ⟨hO.1, hO.2.1⟩
      · exfalso
        have h1 := hC.active_pos p ws1 root hst
        have := hO.2.2.2
        omega
    cases v with
    | fulfilled data =>
      have hC2 := (hC.settled p ws1 root hst (s.results ++ [{ job := root.job, data := data }])
        s.errors (s.completedTasks + 1) (by
          intro j
          simp only [Pool.entries, List.map_append, List.map_cons, List.map_nil,
            List.count_append, List.count_cons, List.count_nil]
          by_cases hj : root.job = j
          · simp [hj]; omega
          · simp [hj])).1
      have := startNextTask_spec cfg imageFiles _ hC2 pre.1 pre.2
      exact ⟨this.1, this.2.1⟩
    | rejected err =>
      have hC2 := (hC.settled p ws1 root hst s.results
        (s.errors ++ [{ job := root.job, filename := root.filename, error := err }])
        (s.completedTasks + 1) (by
          intro j
          simp only [Pool.entries, List.map_append, List.map_cons, List.map_nil,
            List.count_append, List.count_cons, List.count_nil]
          by_cases hj : root.job = j
          · simp [hj]; omega
          · simp [hj])).1
      have := startNextTask_spec cfg imageFiles _ hC2 pre.1 pre.2
      exact ⟨this.1, this.2.1⟩

theorem inv_setWorker {cfg : Config} {imageFiles : List String} {s : Pool}
    (h : Inv cfg imageFiles s) (p : Nat) (w w1 : Worker) (hw : s.workers[p]? = some w)
    (hp : w1.parent = w.parent) (hs : w1.settled = w.settled) (hj : w1.job = w.job) :
    Inv cfg imageFiles { s with workers := s.workers.set p w1 } :=
  ⟨h.1.setWorker p w w1 hw hp hs hj, h.2⟩

theorem inv_applyRetryStep {cfg : Config} {imageFiles : List String} {s : Pool}
    (h : Inv cfg imageFiles s) (p : Nat) (r : RetryStep) :
    Inv cfg imageFiles (applyRetryStep cfg imageFiles s p r) := by
  cases r with
  | retry attempt delay => exact ⟨h.1.setTimers _, h.2⟩
  | reject err => exact inv_applySettle h p _

/-- Every macrotask keeps the pool invariant. -/
theorem inv_step {cfg : Config} {imageFiles : List String} {s : Pool}
    (h : Inv cfg imageFiles s) (e : Event) : Inv cfg imageFiles (step cfg imageFiles s e) := by
  cases e with
  | message p data =>
    simp only [step]
    rcases Option.eq_none_or_eq_some s.workers[p]? with hw | ⟨w, hw⟩
    · simp only [hw]; exact h
    · simp only [hw]
      by_cases hx : w.exited = true
      · rw [if_pos hx]; exact h
      · rw [if_neg hx]
        exact inv_applySettle
          (inv_setWorker h p w { w with timer := w.timer.clear } hw rfl rfl rfl) p _
  | error p message =>
    simp only [step]
    rcases Option.eq_none_or_eq_some s.workers[p]? with hw | ⟨w, hw⟩
    · simp only [hw]; exact h
    · simp only [hw]
      by_cases hx : w.exited = true
      · rw [if_pos hx]; exact h
      · rw [if_neg hx]
        exact inv_applyRetryStep
          (inv_setWorker h p w { w with timer := w.timer.clear } hw rfl rfl rfl) p _
  | exit p code =>
    simp only [step]
    rcases Option.eq_none_or_eq_some s.workers[p]? with hw | ⟨w, hw⟩
    · simp only [hw]; exact h
    · simp only [hw]
      by_cases hx : w.exited = true
      · rw [if_pos hx]; exact h
      · rw [if_neg hx]
        rcases Option.eq_none_or_eq_some (exitHandler cfg w.filename w.attempt code)
          with hr | ⟨r, hr⟩
        · simp only [hr]
          exact inv_setWorker h p w { w with timer := w.timer.clear, exited := true }
            hw rfl rfl rfl
        · simp only [hr]
          exact inv_applyRetryStep
            (inv_setWorker h p w { w with timer := w.timer.clear, exited := true }
              hw rfl rfl rfl) p _
  | timeout p =>
    simp only [step]
    rcases Option.eq_none_or_eq_some s.workers[p]? with hw | ⟨w, hw⟩
    · simp only [hw]; exact h
    · simp only [hw]
      by_cases hx : w.timer = Timer.armed
      · rw [if_pos hx]
        exact inv_applyRetryStep
          (inv_setWorker h p w { w with timer := .fired, terminated := true }
            hw rfl rfl rfl) p _
      · rw [if_neg hx]; exact h
  | retryDelay i =>
    simp only [step]
    rcases Option.eq_none_or_eq_some s.retryTimers[i]? with ht | ⟨t, ht⟩
    · simp only [ht]; exact h
    · simp only [ht]
      by_cases hx : t.fired = true
      · rw [if_pos hx]; exact h
      · rw [if_neg hx]
        rcases Option.eq_none_or_eq_some s.workers[t.parent]? with hw | ⟨pw, hw⟩
        · simp only [hw]; exact h
        · simp only [hw]
          obtain ⟨hl, _⟩ := List.getElem?_eq_some_iff.mp hw
          exact ⟨(h.1.spawnRetry pw.job pw.filename t.attempt t.parent hl).setTimers _, h.2⟩

theorem inv_foldl {cfg : Config} {imageFiles : List String} (es : List Event) :
    ∀ s : Pool, Inv cfg imageFiles s → Inv cfg imageFiles (es.foldl (step cfg imageFiles) s) := by
  induction es with
  | nil => intro s h; exact h
  | cons e es ih => intro s h; exact ih _ (inv_step h e)

theorem counts_emptyPool (cfg : Config) (imageFiles : List String) :
    Counts cfg imageFiles emptyPool := by
  refine ⟨rfl, fun h => h, Nat.zero_le _, ?_, ?_, ?_, ?_, ?_⟩
  · intro j; simp [emptyPool]
  · intro j; simp [emptyPool, Pool.entries]
  · intro j; simp [emptyPool]
  · intro j; simp [emptyPool, Pool.entries]
  · intro p q h; simp [emptyPool] at h

/-- The pool invariant holds after every sequence of events. -/
theorem inv_run (cfg : Config) (imageFiles : List String) (es : List Event) :
    Inv cfg imageFiles (run cfg imageFiles es) := by
  apply inv_foldl
  have := startNextTask_spec cfg imageFiles emptyPool (counts_emptyPool cfg imageFiles) rfl rfl
  exact ⟨this.1, this.2.1⟩

/-- With enough fuel for the chain of `parent` links, more fuel changes nothing:
`settle` never stops for lack of fuel in a state where every retry points to an
earlier `runWorker` call. -/
theorem settle_fuel :
    ∀ (fuel : Nat) (ws : List Worker) (p k : Nat),
      (∀ a b : Nat, (ws.map Worker.parent)[a]? = some (some b) → b < a) → p < fuel →
      settle (fuel + k) ws p = settle fuel ws p := by
  intro fuel
  induction fuel with
  | zero => intro ws p k _ hp; omega
  | succ n ih =>
    intro ws p k hpar hp
    have e : n + 1 + k = (n + k) + 1 := by omega
    rw [e]
    unfold settle
    rcases Option.eq_none_or_eq_some ws[p]? with hw | ⟨w, hw⟩
    · simp only [hw]
    · simp only [hw]
      by_cases hs : w.settled = true
      · rw [if_pos hs, if_pos hs]
      · rw [if_neg hs, if_neg hs]
        rcases Option.eq_none_or_eq_some w.parent with hq | ⟨q, hq⟩
        · rw [hq]
        · rw [hq]
          simp only []
          have hqp : q < p := by
            apply hpar p q
            rw [List.getElem?_map, hw]
            simp [hq]
          apply ih
          · intro a b hab
            apply hpar a b
            have := settle_parents 1 ws p
            unfold settle at this
            simp only [hw, if_neg hs, hq] at this
            unfold settle at this
            rw [← this]; exact hab
          · omega

/-- The `while` loop of `startNextTask` touches neither `results`, `errors` nor `resolve`. -/
theorem spawnLoop_frame (cfg : Config) (imageFiles : List String) :
    ∀ (fuel : Nat) (s : Pool),
      (spawnLoop cfg imageFiles fuel s).results = s.results ∧
      (spawnLoop cfg imageFiles fuel s).errors = s.errors ∧
      (spawnLoop cfg imageFiles fuel s).resolveCalls = s.resolveCalls ∧
      (spawnLoop cfg imageFiles fuel s).resolved = s.resolved ∧
      (spawnLoop cfg imageFiles fuel s).retryTimers = s.retryTimers := by
  intro fuel
  induction fuel with
  | zero => intro s; exact ⟨rfl, rfl, rfl, rfl, rfl⟩
  | succ n ih =>
    intro s
    unfold spawnLoop
    by_cases hc : s.activeWorkers < cfg.MAX_WORKERS ∧ s.currentIndex < imageFiles.length
    · rw [if_pos hc]
      rcases Option.eq_none_or_eq_some imageFiles[s.currentIndex]? with hf | ⟨file, hf⟩
      · simp [hf]
      · simp only [hf]; exact ih _
    · rw [if_neg hc]; exact ⟨rfl, rfl, rfl, rfl, rfl⟩

/-- The loop body is guarded: nothing is admitted at or above the ceiling. -/
theorem spawnLoop_full (cfg : Config) (imageFiles : List String) (fuel : Nat) (s : Pool)
    (h : cfg.MAX_WORKERS ≤ s.activeWorkers) : spawnLoop cfg imageFiles fuel s = s := by
  cases fuel with
  | zero => rfl
  | succ n =>
    unfold spawnLoop
    rw [if_neg]
    intro hc
    omega

theorem startNextTask_frame (cfg : Config) (imageFiles : List String) (s : Pool) :
    (startNextTask cfg imageFiles s).results = s.results ∧
    (startNextTask cfg imageFiles s).errors = s.errors ∧
    (startNextTask cfg imageFiles s).retryTimers = s.retryTimers := by
  unfold startNextTask
  by_cases hc : imageFiles.length ≤ s.currentIndex ∧ s.activeWorkers = 0
  · rw [if_pos hc]; exact ⟨rfl, rfl, rfl⟩
  · rw [if_neg hc]
    obtain ⟨a, b, _, _, e⟩ := spawnLoop_frame cfg imageFiles (imageFiles.length - s.currentIndex) s
    exact ⟨a, b, e⟩

/-- When no pool-level promise is unsettled, the settled ones are all of them. -/
theorem doneOf_eq_rootOf (ws : List Worker) (j : Nat) (h : ws.countP Worker.active = 0) :
    ws.countP (Worker.doneOf j) = ws.countP (Worker.rootOf j) := by
  rw [List.countP_eq_zero] at h
  apply List.countP_congr
  intro w hw
  have := h w hw
  simp only [Worker.active, Bool.and_eq_true, Option.isNone_iff_eq_none, Bool.not_eq_true',
    not_and, Bool.not_eq_false] at this
  simp only [Worker.doneOf, Worker.rootOf, Bool.and_eq_true, Option.isNone_iff_eq_none,
    decide_eq_true_eq]
  constructor
  · rintro ⟨a, _, c⟩; exact ⟨a, c⟩
  · rintro ⟨a, c⟩; exact ⟨a, this a, c⟩

theorem doneOf_le_rootOf (ws : List Worker) (j : Nat) :
    ws.countP (Worker.doneOf j) ≤ ws.countP (Worker.rootOf j) := by
  apply List.countP_mono_left
  intro w _
  simp only [Worker.doneOf, Worker.rootOf, Bool.and_eq_true, Option.isNone_iff_eq_none,
    decide_eq_true_eq]
  rintro ⟨a, _, c⟩
  exact ⟨a, c⟩

/-- A list of job numbers in which every job below `n` occurs once and no other
number occurs has `n` elements. -/
theorem length_of_count (l : List Nat) (n : Nat)
    (h1 : ∀ j, j < n → l.count j = 1) (h0 : ∀ j, n ≤ j → l.count j = 0) : l.length = n := by
  have hp : l.Perm (List.range n) := by
    rw [List.perm_iff_count]
    intro j
    by_cases hj : j < n
    · rw [h1 j hj, List.count_eq_one_of_mem (List.nodup_range n) (List.mem_range.mpr hj)]
    · rw [h0 j (Nat.le_of_not_lt hj),
        List.count_eq_zero_of_not_mem (by simpa [List.mem_range] using hj)]
  rw [hp.length_eq, List.length_range]

/-- Resolving a promise adds at most the resolved data to `results` and leaves
`errors` and the retry timers alone. -/
theorem applySettle_fulfilled (cfg : Config) (imageFiles : List String) (s : Pool) (p : Nat)
    (data : Data) :
    ((applySettle cfg imageFiles s p (.fulfilled data)).results = s.results ∨
      ∃ j, (applySettle cfg imageFiles s p (.fulfilled data)).results
        = s.results ++ [{ job := j, data := data }]) ∧
    (applySettle cfg imageFiles s p (.fulfilled data)).errors = s.errors ∧
    (applySettle cfg imageFiles s p (.fulfilled data)).retryTimers = s.retryTimers := by
  unfold applySettle
  rcases settle (p + 1) s.workers p with ⟨ws1, r⟩
  cases r with
  | none => exact ⟨Or.inl rfl, rfl, rfl⟩
  | some root =>
    simp only [poolCallbacks]
    obtain ⟨a, b, c⟩ := startNextTask_frame cfg imageFiles
      { s with
        workers := ws1
        results := s.results ++ [{ job := root.job, data := data }]
        completedTasks := s.completedTasks + 1
        activeWorkers := s.activeWorkers - 1
        decLog := s.decLog ++ [root.job] }
    exact ⟨Or.inr ⟨root.job, a⟩, b, c⟩

/-- Rejecting a promise never touches `results`. -/
theorem applySettle_rejected (cfg : Config) (imageFiles : List String) (s : Pool) (p : Nat)
    (err : Failure) :
    (applySettle cfg imageFiles s p (.rejected err)).results = s.results := by
  unfold applySettle
  rcases settle (p + 1) s.workers p with ⟨ws1, r⟩
  cases r with
  | none => rfl
  | some root =>
    simp only [poolCallbacks]
    exact (startNextTask_frame cfg imageFiles
      { s with
        workers := ws1
        errors := s.errors ++ [{ job := root.job, filename := root.filename, error := err }]
        completedTasks := s.completedTasks + 1
        activeWorkers := s.activeWorkers - 1
        decLog := s.decLog ++ [root.job] }).1

theorem applyRetryStep_results (cfg : Config) (imageFiles : List String) (s : Pool) (p : Nat)
    (r : RetryStep) : (applyRetryStep cfg imageFiles s p r).results = s.results := by
  cases r with
  | retry attempt delay => rfl
  | reject err => exact applySettle_rejected cfg imageFiles s p err

/-- Only a `message` event can add to `results`, and what it adds is its data. -/
theorem step_results (cfg : Config) (imageFiles : List String) (s : Pool) (e : Event) :
    (step cfg imageFiles s e).results = s.results ∨
    ∃ p data j, e = .message p data ∧
      (step cfg imageFiles s e).results = s.results ++ [{ job := j, data := data }] := by
  cases e with
  | message p data =>
    simp only [step]
    rcases Option.eq_none_or_eq_some s.workers[p]? with hw | ⟨w, hw⟩
    · simp [hw]
    · simp only [hw]
      by_cases hx : w.exited = true
      · rw [if_pos hx]; exact Or.inl rfl
      · rw [if_neg hx]
        rcases (applySettle_fulfilled cfg imageFiles
          { s with workers := s.workers.set p { w with timer := w.timer.clear } } p data).1
          with h | ⟨j, h⟩
        · exact Or.inl h
        · exact Or.inr ⟨p, data, j, rfl, h⟩
  | error p message =>
    left
    simp only [step]
    rcases Option.eq_none_or_eq_some s.workers[p]? with hw | ⟨w, hw⟩
    · simp only [hw]
    · simp only [hw]
      by_cases hx : w.exited = true
      · rw [if_pos hx]
      · rw [if_neg hx]; exact applyRetryStep_results _ _ _ _ _
  | exit p code =>
    left
    simp only [step]
    rcases Option.eq_none_or_eq_some s.workers[p]? with hw | ⟨w, hw⟩
    · simp only [hw]
    · simp only [hw]
      by_cases hx : w.exited = true
      · rw [if_pos hx]
      · rw [if_neg hx]
        rcases Option.eq_none_or_eq_some (exitHandler cfg w.filename w.attempt code)
          with hr | ⟨r, hr⟩
        · simp only [hr]
        · simp only [hr]; exact applyRetryStep_results _ _ _ _ _
  | timeout p =>
    left
    simp only [step]
    rcases Option.eq_none_or_eq_some s.workers[p]? with hw | ⟨w, hw⟩
    · simp only [hw]
    · simp only [hw]
      by_cases hx : w.timer = Timer.armed
      · rw [if_pos hx]; exact applyRetryStep_results _ _ _ _ _
      · rw [if_neg hx]
  | retryDelay i =>
    left
    simp only [step]
    rcases Option.eq_none_or_eq_some s.retryTimers[i]? with ht | ⟨t, ht⟩
    · simp only [ht]
    · simp only [ht]
      by_cases hx : t.fired = true
      · rw [if_pos hx]
      · rw [if_neg hx]
        rcases Option.eq_none_or_eq_some s.workers[t.parent]? with hw | ⟨pw, hw⟩
        · simp only [hw]
        · simp only [hw]

/-- Every entry of `results` carries the data of a `message` event of the run. -/
theorem results_from_messages (cfg : Config) (imageFiles : List String) (es : List Event) :
    ∀ r ∈ (run cfg imageFiles es).results, ∃ p, Event.message p r.data ∈ es := by
  induction es using List.reverseRecOn with
  | nil =>
    intro r hr
    have : (run cfg imageFiles []).results = [] := by
      show (startNextTask cfg imageFiles emptyPool).results = []
      exact (startNextTask_frame cfg imageFiles emptyPool).1
    rw [this] at hr
    cases hr
  | append_singleton es e ih =>
    intro r hr
    have hrun : run cfg imageFiles (es ++ [e])
        = step cfg imageFiles (run cfg imageFiles es) e := by
      simp [run, List.foldl_append]
    rw [hrun] at hr
    rcases step_results cfg imageFiles (run cfg imageFiles es) e with h | ⟨p, data, j, he, h⟩
    · rw [h] at hr
      obtain ⟨q, hq⟩ := ih r hr
      exact ⟨q, List.mem_append_left _ hq⟩
    · rw [h] at hr
      rcases List.mem_append.mp hr with hr | hr
      · obtain ⟨q, hq⟩ := ih r hr
        exact ⟨q, List.mem_append_left _ hq⟩
      · simp only [List.mem_singleton] at hr
        subst hr
        exact ⟨p, by simp [he]⟩

/-- Neither the cursor nor `activeWorkers` goes down in the `while` loop of
`startNextTask`. -/
theorem spawnLoop_mono (cfg : Config) (imageFiles : List String) :
    ∀ (fuel : Nat) (s : Pool),
      s.currentIndex ≤ (spawnLoop cfg imageFiles fuel s).currentIndex ∧
      s.activeWorkers ≤ (spawnLoop cfg imageFiles fuel s).activeWorkers := by
  intro fuel
  induction fuel with
  | zero => intro s; exact ⟨Nat.le_refl _, Int.le_refl _⟩
  | succ n ih =>
    intro s
    unfold spawnLoop
    by_cases hc : s.activeWorkers < cfg.MAX_WORKERS ∧ s.currentIndex < imageFiles.length
    · rw [if_pos hc]
      rcases Option.eq_none_or_eq_some imageFiles[s.currentIndex]? with hf | ⟨file, hf⟩
      · simp [hf]
      · simp only [hf]
        have := ih
          { s with
            currentIndex := s.currentIndex + 1
            activeWorkers := s.activeWorkers + 1
            workers := runWorker s.workers s.currentIndex file 1 none
            incLog := s.incLog ++ [s.currentIndex] }
        have h1 : s.currentIndex + 1 ≤ _ := this.1
        have h2 : s.activeWorkers + 1 ≤ _ := this.2
        exact ⟨by omega, by omega⟩
    · rw [if_neg hc]
      exact ⟨Nat.le_refl _, Int.le_refl _⟩

/-- Any number of iterations of the `while` loop keeps `activeWorkers` at or
below a ceiling it started at or below. -/
theorem spawnLoop_bound (cfg : Config) (imageFiles : List String) :
    ∀ (fuel : Nat) (s : Pool), s.activeWorkers ≤ cfg.MAX_WORKERS →
      (spawnLoop cfg imageFiles fuel s).activeWorkers ≤ cfg.MAX_WORKERS := by
  intro fuel
  induction fuel with
  | zero => intro s h; exact h
  | succ n ih =>
    intro s h
    unfold spawnLoop
    by_cases hc : s.activeWorkers < cfg.MAX_WORKERS ∧ s.currentIndex < imageFiles.length
    · rw [if_pos hc]
      rcases Option.eq_none_or_eq_some imageFiles[s.currentIndex]? with hf | ⟨file, hf⟩
      · simp [hf]; exact h
      · simp only [hf]
        apply ih
        show s.activeWorkers + 1 ≤ cfg.MAX_WORKERS
        omega
    · rw [if_neg hc]; exact h

/-- A loop iteration whose guard holds admits a job. -/
theorem spawnLoop_admits (cfg : Config) (imageFiles : List String) (fuel : Nat) (s : Pool)
    (hg : s.activeWorkers < cfg.MAX_WORKERS ∧ s.currentIndex < imageFiles.length) :
    s.currentIndex + 1 ≤ (spawnLoop cfg imageFiles (fuel + 1) s).currentIndex ∧
    s.activeWorkers + 1 ≤ (spawnLoop cfg imageFiles (fuel + 1) s).activeWorkers := by
  unfold spawnLoop
  rw [if_pos hg]
  obtain ⟨file, hfile⟩ : ∃ file, imageFiles[s.currentIndex]? = some file :=
    ⟨imageFiles.get ⟨s.currentIndex, hg.2⟩, List.getElem?_eq_getElem hg.2⟩
  simp only [hfile]
  exact spawnLoop_mono cfg imageFiles fuel
    { s with
      currentIndex := s.currentIndex + 1
      activeWorkers := s.activeWorkers + 1
      workers := runWorker s.workers s.currentIndex file 1 none
      incLog := s.incLog ++ [s.currentIndex] }

/-- Settling the unsettled promise of a call made by `processWithPool`. -/
theorem settle_root (fuel : Nat) (ws : List Worker) (p : Nat) (w : Worker)
    (hw : ws[p]? = some w) (hs : w.settled = false) (hp : w.parent = none) :
    settle (fuel + 1) ws p = (ws.set p w.markSettled, some w) := by
  unfold settle
  simp only [hw, hs, hp, Bool.false_eq_true, if_false]

/-- In every reachable state the fuel `p + 1` given to `settle` is enough: more
fuel yields the same result. -/
theorem settle_fuel_run (cfg : Config) (imageFiles : List String) (es : List Event)
    (p k : Nat) :
    settle (p + 1 + k) (run cfg imageFiles es).workers p
      = settle (p + 1) (run cfg imageFiles es).workers p :=
  settle_fuel (p + 1) _ p k (inv_run cfg imageFiles es).1.parents (Nat.lt_succ_self p)

/-! ## The claims -/

/-- C1 (concurrency ceiling): for `MAX_WORKERS ≥ 1`, every backlog and every
sequence of events, the counter `activeWorkers` of the state reached satisfies
`0 ≤ activeWorkers ≤ MAX_WORKERS`, the `while` loop of `startNextTask` admits
no job in a state whose `activeWorkers` is not below `MAX_WORKERS`, and any
number of its iterations keeps the counter within these bounds. -/
theorem concurrency_ceiling (cfg : Config) (imageFiles : List String) (es : List Event)
    (hmax : 1 ≤ cfg.MAX_WORKERS) :
    0 ≤ (run cfg imageFiles es).activeWorkers ∧
    (run cfg imageFiles es).activeWorkers ≤ cfg.MAX_WORKERS ∧
    (∀ (fuel : Nat) (s : Pool), cfg.MAX_WORKERS ≤ s.activeWorkers →
      spawnLoop cfg imageFiles fuel s = s) ∧
    (∀ (fuel : Nat) (s : Pool), 0 ≤ s.activeWorkers → s.activeWorkers ≤ cfg.MAX_WORKERS →
      0 ≤ (spawnLoop cfg imageFiles fuel s).activeWorkers ∧
      (spawnLoop cfg imageFiles fuel s).activeWorkers ≤ cfg.MAX_WORKERS) := by
  have h := (inv_run cfg imageFiles es).1
  refine ⟨?_, h.bound (by omega), fun fuel s hs => spawnLoop_full cfg imageFiles fuel s hs,
    fun fuel s h0 h1 => ⟨?_, spawnLoop_bound cfg imageFiles fuel s h1⟩⟩
  · rw [h.active_eq]
    exact Int.ofNat_nonneg _
  · have := (spawnLoop_mono cfg imageFiles fuel s).2
    omega

theorem concurrency_ceiling_witness :
    (1 : Int) ≤ (defaultConfig 2).MAX_WORKERS ∧
    (0 ≤ (run (defaultConfig 2) ["a.jpg", "b.jpg", "c.jpg"] [.timeout 0, .exit 0 1]).activeWorkers ∧
     (run (defaultConfig 2) ["a.jpg", "b.jpg", "c.jpg"] [.timeout 0, .exit 0 1]).activeWorkers
        ≤ (defaultConfig 2).MAX_WORKERS ∧
     (∀ (fuel : Nat) (s : Pool), (defaultConfig 2).MAX_WORKERS ≤ s.activeWorkers →
        spawnLoop (defaultConfig 2) ["a.jpg", "b.jpg", "c.jpg"] fuel s = s) ∧
     (∀ (fuel : Nat) (s : Pool), 0 ≤ s.activeWorkers →
        s.activeWorkers ≤ (defaultConfig 2).MAX_WORKERS →
        0 ≤ (spawnLoop (defaultConfig 2) ["a.jpg", "b.jpg", "c.jpg"] fuel s).activeWorkers ∧
        (spawnLoop (defaultConfig 2) ["a.jpg", "b.jpg", "c.jpg"] fuel s).activeWorkers
          ≤ (defaultConfig 2).MAX_WORKERS)) :=
  ⟨by decide, concurrency_ceiling (defaultConfig 2) ["a.jpg", "b.jpg", "c.jpg"]
    [.timeout 0, .exit 0 1] (by decide)⟩

/-- C2 (no loss, no duplication): whenever `processWithPool` has resolved, with
`results = rs` and `errors = errs`, every job of the backlog has exactly one
entry in `rs ++ errs`, no other job number has any, and
`rs.length + errs.length = imageFiles.length`; the lists are the final
`results` and `errors`. -/
theorem no_loss_no_duplication (cfg : Config) (imageFiles : List String) (es : List Event)
    (rs : List ResultEntry) (errs : List ErrorEntry)
    (h : (run cfg imageFiles es).resolved = some (rs, errs)) :
    (∀ j, j < imageFiles.length →
      (rs.map ResultEntry.job ++ errs.map ErrorEntry.job).count j = 1) ∧
    (∀ j, imageFiles.length ≤ j →
      (rs.map ResultEntry.job ++ errs.map ErrorEntry.job).count j = 0) ∧
    rs.length + errs.length = imageFiles.length ∧
    rs = (run cfg imageFiles es).results ∧ errs = (run cfg imageFiles es).errors := by
  obtain ⟨hC, hO⟩ := inv_run cfg imageFiles es
  rcases hO with hO | hO
  · rw [hO.2.1] at h; cases h
  · obtain ⟨_, hres, hlen, hact⟩ := hO
    rw [hres] at h
    cases h
    have hidx : (run cfg imageFiles es).currentIndex = imageFiles.length :=
      Nat.le_antisymm hC.index_le hlen
    have hzero : (run cfg imageFiles es).workers.countP Worker.active = 0 := by
      have := hC.active_eq
      omega
    have hcount : ∀ j, ((run cfg imageFiles es).results.map ResultEntry.job
        ++ (run cfg imageFiles es).errors.map ErrorEntry.job).count j
        = if j < imageFiles.length then 1 else 0 := by
      intro j
      have := hC.entries j
      rw [Pool.entries] at this
      rw [this, doneOf_eq_rootOf _ j hzero, hC.roots j, hidx]
    have h1 : ∀ j, j < imageFiles.length →
        ((run cfg imageFiles es).results.map ResultEntry.job
          ++ (run cfg imageFiles es).errors.map ErrorEntry.job).count j = 1 := by
      intro j hj; rw [hcount j, if_pos hj]
    have h0 : ∀ j, imageFiles.length ≤ j →
        ((run cfg imageFiles es).results.map ResultEntry.job
          ++ (run cfg imageFiles es).errors.map ErrorEntry.job).count j = 0 := by
      intro j hj; rw [hcount j, if_neg (by omega)]
    refine ⟨h1, h0, ?_, rfl, rfl⟩
    have := length_of_count _ _ h1 h0
    simpa using this

theorem no_loss_no_duplication_witness :
    (run (defaultConfig 1) ["a.jpg", "b.jpg"]
        [.message 0 (successMessage "a.jpg"), .exit 1 1, .retryDelay 0, .exit 2 1]).resolved
      = some ([{ job := 0, data := successMessage "a.jpg" }],
              [{ job := 1, filename := "b.jpg", error := .exitCode 1 "b.jpg" }]) ∧
    ((∀ j, j < ["a.jpg", "b.jpg"].length →
      (([{ job := 0, data := successMessage "a.jpg" }] : List ResultEntry).map ResultEntry.job
        ++ ([{ job := 1, filename := "b.jpg", error := .exitCode 1 "b.jpg" }] :
              List ErrorEntry).map ErrorEntry.job).count j = 1) ∧
    (∀ j, ["a.jpg", "b.jpg"].length ≤ j →
      (([{ job := 0, data := successMessage "a.jpg" }] : List ResultEntry).map ResultEntry.job
        ++ ([{ job := 1, filename := "b.jpg", error := .exitCode 1 "b.jpg" }] :
              List ErrorEntry).map ErrorEntry.job).count j = 0) ∧
    ([{ job := 0, data := successMessage "a.jpg" }] : List ResultEntry).length
      + ([{ job := 1, filename := "b.jpg", error := .exitCode 1 "b.jpg" }] :
              List ErrorEntry).length = ["a.jpg", "b.jpg"].length ∧
    [{ job := 0, data := successMessage "a.jpg" }]
      = (run (defaultConfig 1) ["a.jpg", "b.jpg"]
          [.message 0 (successMessage "a.jpg"), .exit 1 1, .retryDelay 0, .exit 2 1]).results ∧
    [{ job := 1, filename := "b.jpg", error := .exitCode 1 "b.jpg" }]
      = (run (defaultConfig 1) ["a.jpg", "b.jpg"]
          [.message 0 (successMessage "a.jpg"), .exit 1 1, .retryDelay 0, .exit 2 1]).errors) :=
  ⟨by rfl, no_loss_no_duplication (defaultConfig 1) ["a.jpg", "b.jpg"]
    [.message 0 (successMessage "a.jpg"), .exit 1 1, .retryDelay 0, .exit 2 1] _ _ (by rfl)⟩

/-- C3 (termination condition): a call of `startNextTask` calls `resolve` if and
only if it runs in a state with `currentIndex ≥ imageFiles.length` and
`activeWorkers = 0`, and otherwise leaves the promise alone; after every
sequence of events the promise of `processWithPool` is resolved if and only if
the cursor is at the end of the backlog and `activeWorkers = 0`, so never while a
job is active or not yet admitted; for the empty backlog the first call resolves
with `results = []` and `errors = []`. -/
theorem termination_condition (cfg : Config) (imageFiles : List String) :
    (∀ s : Pool, (startNextTask cfg imageFiles s).resolveCalls = s.resolveCalls + 1 ↔
      (imageFiles.length ≤ s.currentIndex ∧ s.activeWorkers = 0)) ∧
    (∀ s : Pool, ¬ (imageFiles.length ≤ s.currentIndex ∧ s.activeWorkers = 0) →
      (startNextTask cfg imageFiles s).resolveCalls = s.resolveCalls ∧
      (startNextTask cfg imageFiles s).resolved = s.resolved) ∧
    (∀ es : List Event, (run cfg imageFiles es).resolved ≠ none ↔
      ((run cfg imageFiles es).currentIndex = imageFiles.length ∧
        (run cfg imageFiles es).activeWorkers = 0)) ∧
    (∀ es : List Event, (run cfg imageFiles es).resolved ≠ none →
      (run cfg imageFiles es).workers.countP Worker.active = 0 ∧
      (run cfg imageFiles es).resolved
        = some ((run cfg imageFiles es).results, (run cfg imageFiles es).errors)) ∧
    (processWithPool cfg []).resolved = some ([], []) ∧
    (processWithPool cfg []).resolveCalls = 1 := by
  have key : ∀ s : Pool, ¬ (imageFiles.length ≤ s.currentIndex ∧ s.activeWorkers = 0) →
      (startNextTask cfg imageFiles s).resolveCalls = s.resolveCalls ∧
      (startNextTask cfg imageFiles s).resolved = s.resolved := by
    intro s hc
    unfold startNextTask
    rw [if_neg hc]
    obtain ⟨_, _, c, d, _⟩ :=
      spawnLoop_frame cfg imageFiles (imageFiles.length - s.currentIndex) s
    exact ⟨c, d⟩
  refine ⟨?_, key, ?_, ?_, ?_, ?_⟩
  · intro s
    constructor
    · intro h
      by_contra hc
      have := (key s hc).1
      omega
    · intro hc
      unfold startNextTask
      rw [if_pos hc]
  · intro es
    obtain ⟨hC, hO⟩ := inv_run cfg imageFiles es
    constructor
    · intro h
      rcases hO with hO | hO
      · exact absurd hO.2.1 h
      · exact ⟨Nat.le_antisymm hC.index_le hO.2.2.1, hO.2.2.2⟩
    · intro h
      rcases hO with hO | hO
      · exact absurd ⟨Nat.le_of_eq h.1.symm, h.2⟩ hO.2.2
      · rw [hO.2.1]; simp
  · intro es h
    obtain ⟨hC, hO⟩ := inv_run cfg imageFiles es
    rcases hO with hO | hO
    · exact absurd hO.2.1 h
    · refine ⟨?_, hO.2.1⟩
      have := hC.active_eq
      have := hO.2.2.2
      omega
  · simp [processWithPool, startNextTask, emptyPool]
  · simp [processWithPool, startNextTask, emptyPool]

/-- Bookkeeping of the counter after every sequence of events:
`activeWorkers++` has run exactly once for every admitted job and for no other,
`activeWorkers--` has run once for every terminal entry of a job and never
twice for a job, the `resolve` callback of `processWithPool` has been called at
most once, and once it has been called both have run exactly once for every job
of the backlog. -/
theorem batch_complete_once (cfg : Config) (imageFiles : List String) (es : List Event) :
    (∀ j, j < (run cfg imageFiles es).currentIndex →
      (run cfg imageFiles es).incLog.count j = 1) ∧
    (∀ j, (run cfg imageFiles es).currentIndex ≤ j →
      (run cfg imageFiles es).incLog.count j = 0 ∧
      (run cfg imageFiles es).decLog.count j = 0) ∧
    (∀ j, (run cfg imageFiles es).decLog.count j = (run cfg imageFiles es).entries j ∧
      (run cfg imageFiles es).decLog.count j ≤ 1) ∧
    (run cfg imageFiles es).resolveCalls ≤ 1 ∧
    ((run cfg imageFiles es).resolveCalls = 1 → ∀ j, j < imageFiles.length →
      (run cfg imageFiles es).incLog.count j = 1 ∧
      (run cfg imageFiles es).decLog.count j = 1) := by
  obtain ⟨hC, hO⟩ := inv_run cfg imageFiles es
  have hle : ∀ j, (run cfg imageFiles es).decLog.count j
      ≤ if j < (run cfg imageFiles es).currentIndex then 1 else 0 := by
    intro j
    rw [hC.decs j, hC.entries j, ← hC.roots j]
    exact doneOf_le_rootOf _ j
  refine ⟨?_, ?_, ?_, ?_, ?_⟩
  · intro j hj; rw [hC.incs j, if_pos hj]
  · intro j hj
    have := hle j
    rw [if_neg (by omega)] at this
    exact ⟨by rw [hC.incs j, if_neg (by omega)], by omega⟩
  · intro j
    refine ⟨hC.decs j, ?_⟩
    have := hle j
    split at this <;> omega
  · rcases hO with hO | hO
    · rw [hO.1]; omega
    · rw [hO.1]
  · intro h1 j hj
    rcases hO with hO | hO
    · rw [hO.1] at h1; cases h1
    · obtain ⟨_, _, hlen, hact⟩ := hO
      have hidx : (run cfg imageFiles es).currentIndex = imageFiles.length :=
        Nat.le_antisymm hC.index_le hlen
      have hzero : (run cfg imageFiles es).workers.countP Worker.active = 0 := by
        have := hC.active_eq
        omega
      refine ⟨by rw [hC.incs j, hidx, if_pos hj], ?_⟩
      rw [hC.decs j, hC.entries j, doneOf_eq_rootOf _ j hzero, hC.roots j, hidx, if_pos hj]

/-- C4 (retry bound), evaluated at the failing input: with `maxRetries = 2`, a
job whose first attempt throws (Node emits `error`, then `exit` with code 1) has
two retries scheduled by that one attempt, so the job is executed three times,
not twice; it still ends with a single entry in `errors`. -/
theorem retry_bound_exceeded :
    (defaultConfig 1).retry.maxRetries = 2 ∧
    ((run (defaultConfig 1) ["a.jpg"]
        [.error 0 "boom", .exit 0 1, .retryDelay 0, .retryDelay 1,
         .error 1 "boom", .exit 1 1, .error 2 "boom", .exit 2 1]).workers.map
        (fun w => (w.job, w.attempt, w.parent))) = [(0, 1, none), (0, 2, some 0), (0, 2, some 0)] ∧
    (run (defaultConfig 1) ["a.jpg"]
        [.error 0 "boom", .exit 0 1, .retryDelay 0, .retryDelay 1,
         .error 1 "boom", .exit 1 1, .error 2 "boom", .exit 2 1]).errors
      = [{ job := 0, filename := "a.jpg", error := .workerError "a.jpg" "boom" }] ∧
    (run (defaultConfig 1) ["a.jpg"]
        [.error 0 "boom", .exit 0 1, .retryDelay 0, .retryDelay 1,
         .error 1 "boom", .exit 1 1, .error 2 "boom", .exit 2 1]).resolveCalls = 1 := by
  refine ⟨rfl, ?_, ?_, ?_⟩ <;> rfl

/-- C5 (retry decision rule): for a timeout, a worker error and a non-zero exit
alike, and for every attempt number, the handler rejects when retries are
disabled or `attempt ≥ maxRetries`, and otherwise schedules `runWorker` with
`attempt + 1` after `config.retry.delayMs`, whatever the attempt number; a
scheduled retry becomes a pending timer with exactly that attempt and delay. -/
theorem retry_decision_rule (cfg : Config) (imageFiles : List String) (filename message : String)
    (attempt : Nat) (code : Int) (hcode : code ≠ 0) :
    ((cfg.retry.enabled = false ∨ cfg.retry.maxRetries ≤ attempt) →
      timeoutHandler cfg filename attempt = .reject (.timeout filename) ∧
      errorHandler cfg filename attempt message = .reject (.workerError filename message) ∧
      exitHandler cfg filename attempt code = some (.reject (.exitCode code filename))) ∧
    (¬ (cfg.retry.enabled = false ∨ cfg.retry.maxRetries ≤ attempt) →
      timeoutHandler cfg filename attempt = .retry (attempt + 1) cfg.retry.delayMs ∧
      errorHandler cfg filename attempt message = .retry (attempt + 1) cfg.retry.delayMs ∧
      exitHandler cfg filename attempt code = some (.retry (attempt + 1) cfg.retry.delayMs)) ∧
    (∀ (s : Pool) (p : Nat),
      (applyRetryStep cfg imageFiles s p (.retry (attempt + 1) cfg.retry.delayMs)).retryTimers
        = s.retryTimers ++ [{ parent := p, attempt := attempt + 1, delay := cfg.retry.delayMs,
                              fired := false }]) := by
  have hc : (code != 0) = true := by simpa using hcode
  refine ⟨?_, ?_, fun s p => rfl⟩
  · intro h
    have hcond : (cfg.retry.enabled && decide (attempt < cfg.retry.maxRetries)) = false := by
      rcases h with h | h
      · simp [h]
      · simp [Nat.not_lt.mpr h]
    simp [timeoutHandler, errorHandler, exitHandler, hcond, hc]
  · intro h
    have hcond : (cfg.retry.enabled && decide (attempt < cfg.retry.maxRetries)) = true := by
      simp only [not_or, Bool.not_eq_false, Nat.not_le] at h
      simp [h.1, h.2]
    simp [timeoutHandler, errorHandler, exitHandler, hcond, hc]

theorem retry_decision_rule_witness :
    (1 : Int) ≠ 0 ∧
    (((defaultConfig 4).retry.enabled = false ∨ (defaultConfig 4).retry.maxRetries ≤ 1) →
      timeoutHandler (defaultConfig 4) "a.jpg" 1 = .reject (.timeout "a.jpg") ∧
      errorHandler (defaultConfig 4) "a.jpg" 1 "boom" = .reject (.workerError "a.jpg" "boom") ∧
      exitHandler (defaultConfig 4) "a.jpg" 1 1 = some (.reject (.exitCode 1 "a.jpg"))) ∧
    (¬ ((defaultConfig 4).retry.enabled = false ∨ (defaultConfig 4).retry.maxRetries ≤ 1) →
      timeoutHandler (defaultConfig 4) "a.jpg" 1
        = .retry (1 + 1) (defaultConfig 4).retry.delayMs ∧
      errorHandler (defaultConfig 4) "a.jpg" 1 "boom"
        = .retry (1 + 1) (defaultConfig 4).retry.delayMs ∧
      exitHandler (defaultConfig 4) "a.jpg" 1 1
        = some (.retry (1 + 1) (defaultConfig 4).retry.delayMs)) ∧
    (∀ (s : Pool) (p : Nat),
      (applyRetryStep (defaultConfig 4) ["a.jpg"] s p
          (.retry (1 + 1) (defaultConfig 4).retry.delayMs)).retryTimers
        = s.retryTimers ++ [{ parent := p, attempt := 1 + 1,
                              delay := (defaultConfig 4).retry.delayMs, fired := false }]) :=
  ⟨by decide, retry_decision_rule (defaultConfig 4) ["a.jpg"] "a.jpg" "boom" 1 1 (by decide)⟩

/-- C8 (timeout without late recording), evaluated at the failing input: the
timer of the first attempt fires while a retry is still possible, the worker is
terminated and nothing is recorded; a `message` event of that worker delivered
afterwards resolves the job's promise, and its data is pushed to `results`. -/
theorem late_message_recorded :
    (run (defaultConfig 1) ["a.jpg"] [.timeout 0]).workers.map
        (fun w => (w.timer, w.terminated, w.settled)) = [(Timer.fired, true, false)] ∧
    (run (defaultConfig 1) ["a.jpg"] [.timeout 0]).results = [] ∧
    (run (defaultConfig 1) ["a.jpg"] [.timeout 0]).retryTimers
      = [{ parent := 0, attempt := 2, delay := 1000, fired := false }] ∧
    (run (defaultConfig 1) ["a.jpg"]
        [.timeout 0, .message 0 (successMessage "a.jpg")]).results
      = [{ job := 0, data := successMessage "a.jpg" }] ∧
    (run (defaultConfig 1) ["a.jpg"]
        [.timeout 0, .message 0 (successMessage "a.jpg")]).resolved
      = some ([{ job := 0, data := successMessage "a.jpg" }], []) := by
  refine ⟨?_, ?_, ?_, ?_, ?_⟩ <;> rfl

/-- C9 (no job started twice concurrently), evaluated at the failing input: the
timeout handler of the first attempt and the `exit` handler that follows
`worker.terminate()` each schedule a retry, and when both timers have fired two
workers of attempt 2 run for the same job at the same time. -/
theorem double_retry_spawned :
    (run (defaultConfig 1) ["a.jpg"] [.timeout 0, .exit 0 1]).retryTimers
      = [{ parent := 0, attempt := 2, delay := 1000, fired := false },
         { parent := 0, attempt := 2, delay := 1000, fired := false }] ∧
    ((run (defaultConfig 1) ["a.jpg"]
        [.timeout 0, .exit 0 1, .retryDelay 0, .retryDelay 1]).workers.filter
        (fun w => decide (w.job = 0) && !w.exited)).map
        (fun w => (w.attempt, w.parent, w.timer)) = [(2, some 0, Timer.armed), (2, some 0, Timer.armed)] := by
  refine ⟨?_, ?_⟩ <;> rfl

/-- What the `message` handler records: a `message` event of the worker that
`processWithPool` started for a job, delivered while that job's promise is
unsettled, appends its data to `results`, whatever its `success` flag, and
changes neither `errors` nor the retry timers; and every entry of `results`
after any run carries the data of a `message` event of that run. -/
theorem message_recorded_in_results (cfg : Config) (imageFiles : List String) (s : Pool)
    (p : Nat) (data : Data) (w : Worker)
    (hw : s.workers[p]? = some w) (hx : w.exited = false) (hp : w.parent = none)
    (hs : w.settled = false) :
    (step cfg imageFiles s (.message p data)).results
      = s.results ++ [{ job := w.job, data := data }] ∧
    (step cfg imageFiles s (.message p data)).errors = s.errors ∧
    (step cfg imageFiles s (.message p data)).retryTimers = s.retryTimers ∧
    (∀ (es : List Event), ∀ r ∈ (run cfg imageFiles es).results,
      ∃ q, Event.message q r.data ∈ es) := by
  obtain ⟨hl, _⟩ := List.getElem?_eq_some_iff.mp hw
  have hget : (s.workers.set p { w with timer := w.timer.clear })[p]?
      = some { w with timer := w.timer.clear } := by
    simp [List.getElem?_set, hl]
  have hst := settle_root p _ p _ hget hs hp
  have hstep : step cfg imageFiles s (.message p data)
      = applySettle cfg imageFiles
          { s with workers := s.workers.set p { w with timer := w.timer.clear } }
          p (.fulfilled data) := by
    simp only [step, hw]
    rw [if_neg (by simp [hx])]
  rw [hstep]
  unfold applySettle
  simp only [hst, poolCallbacks]
  refine ⟨?_, ?_, ?_, fun es => results_from_messages cfg imageFiles es⟩
  · exact (startNextTask_frame cfg imageFiles _).1
  · exact (startNextTask_frame cfg imageFiles _).2.1
  · exact (startNextTask_frame cfg imageFiles _).2.2

/-- C7 as stated fails: with `--workers 0` and `maxWorkers: 0` on a host with 4
cores, `main` raises no configuration error; `MAX_WORKERS` is 4 and the first
job is admitted. -/
theorem zero_workers_not_rejected :
    resolveMaxWorkers (some 0) (some 0) 4 = 4 ∧
    main (some 0) (some 0) 4 true ["a.jpg"] 60000
        { enabled := true, maxRetries := 2, delayMs := 1000 }
      = .started (processWithPool (defaultConfig 4) ["a.jpg"]) ∧
    (processWithPool (defaultConfig 4) ["a.jpg"]).currentIndex = 1 ∧
    (processWithPool (defaultConfig 4) ["a.jpg"]).activeWorkers = 1 := by
  refine ⟨by decide, rfl, rfl, rfl⟩

/-- C7, amended: a requested worker count of 0 is not rejected but read as
"not set".  `--workers 0` gives way to `config.workers.maxWorkers`, a
configured 0 (or `null`) gives way to `os.cpus().length`; with both 0 on a host
with at least one core and a non-empty backlog, `main` starts the pool with
`MAX_WORKERS = os.cpus().length` and the first job is admitted. -/
theorem zero_workers_fall_back (cfgWorkers : Option Int) (cpus : Nat)
    (imageFiles : List String) (timeout : Nat) (retry : RetryConfig)
    (hfiles : imageFiles ≠ []) (hcpus : 1 ≤ cpus) :
    resolveMaxWorkers (some 0) cfgWorkers cpus = resolveMaxWorkers none cfgWorkers cpus ∧
    resolveMaxWorkers none (some 0) cpus = (cpus : Int) ∧
    resolveMaxWorkers none none cpus = (cpus : Int) ∧
    resolveMaxWorkers (some 0) (some 0) cpus = (cpus : Int) ∧
    ∃ pool, main (some 0) (some 0) cpus true imageFiles timeout retry = .started pool ∧
      1 ≤ pool.currentIndex ∧ 1 ≤ pool.activeWorkers ∧
      pool.activeWorkers ≤ (cpus : Int) := by
  refine ⟨?_, ?_, ?_, ?_, ?_⟩
  · cases cfgWorkers <;> simp [resolveMaxWorkers, truthy]
  · simp [resolveMaxWorkers, truthy]
  · simp [resolveMaxWorkers]
  · simp [resolveMaxWorkers, truthy]
  · have hmax : resolveMaxWorkers (some 0) (some 0) cpus = (cpus : Int) := by
      simp [resolveMaxWorkers, truthy]
    have hlen : 0 < imageFiles.length := List.length_pos.mpr hfiles
    obtain ⟨n, hn⟩ : ∃ n, imageFiles.length - emptyPool.currentIndex = n + 1 :=
      ⟨imageFiles.length - 1, by show imageFiles.length - 0 = _; omega⟩
    have hpool : processWithPool
          { MAX_WORKERS := (cpus : Int), timeout := timeout, retry := retry } imageFiles
        = spawnLoop { MAX_WORKERS := (cpus : Int), timeout := timeout, retry := retry }
            imageFiles (n + 1) emptyPool := by
      unfold processWithPool startNextTask
      rw [if_neg (by
        intro h
        have h1 : imageFiles.length ≤ 0 := h.1
        omega), hn]
    have hadm := spawnLoop_admits
      { MAX_WORKERS := (cpus : Int), timeout := timeout, retry := retry } imageFiles n emptyPool
      ⟨by show (0 : Int) < (cpus : Int); omega, hlen⟩
    have hC := (inv_run { MAX_WORKERS := (cpus : Int), timeout := timeout, retry := retry }
      imageFiles []).1
    have hb := hC.bound (by show (0 : Int) ≤ (cpus : Int); omega)
    refine ⟨processWithPool { MAX_WORKERS := (cpus : Int), timeout := timeout, retry := retry }
      imageFiles, ?_, ?_, ?_, hb⟩
    · simp only [main, hmax]
      rw [if_neg (by simp), if_neg (by omega)]
    · rw [hpool]
      have := hadm.1
      have h0 : emptyPool.currentIndex = 0 := rfl
      omega
    · rw [hpool]
      have := hadm.2
      have h0 : emptyPool.activeWorkers = 0 := rfl
      omega

theorem zero_workers_fall_back_witness :
    ["a.jpg"] ≠ ([] : List String) ∧ 1 ≤ 4 ∧
    (resolveMaxWorkers (some 0) (some 3) 4 = resolveMaxWorkers none (some 3) 4 ∧
    resolveMaxWorkers none (some 0) 4 = ((4 : Nat) : Int) ∧
    resolveMaxWorkers none none 4 = ((4 : Nat) : Int) ∧
    resolveMaxWorkers (some 0) (some 0) 4 = ((4 : Nat) : Int) ∧
    ∃ pool, main (some 0) (some 0) 4 true ["a.jpg"] 60000
        { enabled := true, maxRetries := 2, delayMs := 1000 } = .started pool ∧
      1 ≤ pool.currentIndex ∧ 1 ≤ pool.activeWorkers ∧
      pool.activeWorkers ≤ ((4 : Nat) : Int)) :=
  ⟨by decide, by decide,
    zero_workers_fall_back (some 3) 4 ["a.jpg"] 60000
      { enabled := true, maxRetries := 2, delayMs := 1000 } (by decide) (by decide)⟩

/-! ## `worker.js` and the silent exit -/

/-- The accumulator of `String.intercalate` stays at the front of its result. -/
theorem intercalate_go_prefix (sep : String) :
    ∀ (l : List String) (acc : String), ∃ post, String.intercalate.go acc sep l = acc ++ post := by
  intro l
  induction l with
  | nil => intro acc; exact ⟨"", by simp [String.intercalate.go]⟩
  | cons a as ih =>
    intro acc
    obtain ⟨post, h⟩ := ih (acc ++ sep ++ a)
    refine ⟨sep ++ a ++ post, ?_⟩
    show String.intercalate.go (acc ++ sep ++ a) sep as = _
    rw [h]
    simp only [String.append_assoc]

theorem intercalate_go_mem (sep : String) (x : String) :
    ∀ (l : List String) (acc : String), x ∈ l →
      ∃ pre post, String.intercalate.go acc sep l = pre ++ x ++ post := by
  intro l
  induction l with
  | nil => intro acc h; cases h
  | cons a as ih =>
    intro acc h
    rcases List.mem_cons.mp h with h | h
    · subst h
      obtain ⟨post, hp⟩ := intercalate_go_prefix sep as (acc ++ sep ++ x)
      exact ⟨acc ++ sep, post, by simp only [String.intercalate.go, hp]⟩
    · obtain ⟨pre, post, hp⟩ := ih (acc ++ sep ++ a) h
      exact ⟨pre, post, by simp only [String.intercalate.go, hp]⟩

/-- Every element of a list occurs in the text `join` makes of it. -/
theorem intercalate_mem (sep : String) (x : String) (l : List String) (h : x ∈ l) :
    ∃ pre post, sep.intercalate l = pre ++ x ++ post := by
  cases l with
  | nil => cases h
  | cons a as =>
    rcases List.mem_cons.mp h with h | h
    · subst h
      obtain ⟨post, hp⟩ := intercalate_go_prefix sep as x
      exact ⟨"", post, by simp only [String.intercalate, hp, String.empty_append]⟩
    · obtain ⟨pre, post, hp⟩ := intercalate_go_mem sep x as a h
      exact ⟨pre, post, by simp only [String.intercalate, hp]⟩

theorem isFailure_runTask (t : Task) : isFailure (runTask t) = true ↔ t.operation ≠ .ok := by
  cases h : t.operation <;> simp [runTask, isFailure, h]

/-- The failures of a task list are empty exactly when every operation succeeds. -/
theorem failures_pos (tasks : List Task) :
    0 < ((tasks.map runTask).filter isFailure).length ↔ ∃ t ∈ tasks, t.operation ≠ .ok := by
  rw [List.length_pos_iff_exists_mem]
  constructor
  · rintro ⟨r, hr⟩
    obtain ⟨hm, hf⟩ := List.mem_filter.mp hr
    obtain ⟨t, ht, rfl⟩ := List.mem_map.mp hm
    exact ⟨t, ht, (isFailure_runTask t).mp hf⟩
  · rintro ⟨t, ht, hne⟩
    exact ⟨runTask t, List.mem_filter.mpr
      ⟨List.mem_map.mpr ⟨t, ht, rfl⟩, (isFailure_runTask t).mpr hne⟩⟩

/-- C11 (job-specific output subdirectory), evaluated at the failing input: the
distinct filenames `a.jpg` and `a.png` have the same text before their first
dot, so whatever `path.join` and `outputDir` are, both jobs get the same output
subdirectory. -/
theorem output_subdir_collision :
    ("a.jpg" : String) ≠ "a.png" ∧
    firstSegment "a.jpg" = "a" ∧ firstSegment "a.png" = "a" ∧
    ∀ (join : String → String → String) (outputDir : String),
      outputSubDirPath join outputDir "a.jpg" = outputSubDirPath join outputDir "a.png" := by
  refine ⟨by decide, by decide, by decide, fun join outputDir => ?_⟩
  have h : firstSegment "a.jpg" = firstSegment "a.png" := by decide
  simp only [outputSubDirPath, h]

/-- C12 (every enabled transformation is applied), evaluated at the failing
input: with the `transformations` of `config.js`, where all 22 keys are enabled,
`xlarge` is enabled but no task is named `xlarge`, and the success message
reports `tasksCompleted = 21`.  Every other key does get exactly one task
whenever it is enabled. -/
theorem xlarge_never_applied :
    "xlarge" ∈ configKeys ∧ defaultTransformations "xlarge" = true ∧
    (taskNames defaultTransformations).count "xlarge" = 0 ∧
    (configKeys.filter defaultTransformations).length = 22 ∧
    (processImage "input-images/a.jpg" "a.jpg" "multi-threaded-output" none
        defaultTransformations (fun _ => .ok) 7).posted
      = [{ success := true, filename := "a.jpg", processingTime := 7,
           tasksCompleted := some 21, error := none }] ∧
    (∀ (enabled : String → Bool) (k : String), k ∈ configKeys → k ≠ "xlarge" →
      enabled k = true → (taskNames enabled).count k = 1) := by
  refine ⟨by decide, by decide, by decide, by decide, by decide, ?_⟩
  intro enabled k hk hne he
  have hcount : resizeKeys.count k + singleKeys.count k = 1 := by
    simp only [configKeys, List.mem_cons, List.mem_singleton, List.not_mem_nil, or_false] at hk
    rcases hk with h | h | h | h | h | h | h | h | h | h | h | h | h | h | h | h | h | h | h |
      h | h | h
    all_goals first
      | exact absurd h hne
      | (subst h; decide)
  simp only [taskNames, List.count_append, List.count_filter he]
  exact hcount

/-- C13 (whole job fails on any sub-failure): for every task list and every way
its operations end, `processImage` posts exactly one message; that message has
`success: true` if and only if every operation succeeded; if some operation
threw, the message has `success: false`, the worker exits with code 1, and the
error text contains `name (message)` for each failed task.  With valid
`workerData` and a loaded image, `processImage` is this report on the built
task list. -/
theorem whole_job_fails_on_sub_failure (filename : String) (processingTime : Nat)
    (tasks : List Task) :
    (∃ m, (reportTasks filename processingTime tasks).posted = [m] ∧
      (m.success = true ↔ ∀ t ∈ tasks, t.operation = .ok)) ∧
    ((∀ t ∈ tasks, t.operation = .ok) →
      (reportTasks filename processingTime tasks).posted
        = [{ success := true, filename := filename, processingTime := processingTime,
             tasksCompleted := some tasks.length, error := none }]) ∧
    ((∃ t ∈ tasks, t.operation ≠ .ok) →
      ∃ m text, (reportTasks filename processingTime tasks).posted = [m] ∧
        m.success = false ∧ m.error = some text ∧
        (reportTasks filename processingTime tasks).exitCode = 1 ∧
        ∀ t ∈ tasks, ∀ e, t.operation = .threw e →
          ∃ pre post, text = pre ++ (t.name ++ " (" ++ e ++ ")") ++ post) ∧
    (∀ (imagePath outputDir : String) (enabled : String → Bool) (ops : String → Operation),
      imagePath ≠ "" → filename ≠ "" → outputDir ≠ "" →
      processImage imagePath filename outputDir none enabled ops processingTime
        = reportTasks filename processingTime (buildTasks enabled ops)) := by
  have hall : (∀ t ∈ tasks, t.operation = .ok) ↔
      ¬ 0 < ((tasks.map runTask).filter isFailure).length := by
    rw [failures_pos]
    constructor
    · rintro h ⟨t, ht, hne⟩; exact hne (h t ht)
    · intro h t ht
      by_contra hne
      exact h ⟨t, ht, hne⟩
  have hpos : 0 < ((tasks.map runTask).filter isFailure).length →
      reportTasks filename processingTime tasks
        = postFailure filename processingTime
            ("Failed to process tasks: "
              ++ ", ".intercalate (((tasks.map runTask).filter isFailure).map describeFailure)) := by
    intro hf
    simp only [reportTasks, if_pos hf]
  have hneg : ¬ 0 < ((tasks.map runTask).filter isFailure).length →
      reportTasks filename processingTime tasks
        = { posted := [{ success := true, filename := filename,
                         processingTime := processingTime,
                         tasksCompleted := some tasks.length, error := none }],
            exitCode := 0 } := by
    intro hf
    simp only [reportTasks, if_neg hf]
  refine ⟨?_, ?_, ?_, ?_⟩
  · by_cases hf : 0 < ((tasks.map runTask).filter isFailure).length
    · rw [hpos hf]
      refine ⟨_, rfl, ?_⟩
      simp only [Bool.false_eq_true, false_iff]
      exact fun h => (hall.mp h) hf
    · rw [hneg hf]
      refine ⟨_, rfl, ?_⟩
      simp only [true_iff]
      exact hall.mpr hf
  · intro h
    rw [hneg (hall.mp h)]
  · intro h
    have hf := (failures_pos tasks).mpr h
    rw [hpos hf]
    refine ⟨_, _, rfl, rfl, rfl, rfl, ?_⟩
    intro t ht e he
    have hmem : t.name ++ " (" ++ e ++ ")"
        ∈ ((tasks.map runTask).filter isFailure).map describeFailure := by
      refine List.mem_map.mpr ⟨runTask t, List.mem_filter.mpr
        ⟨List.mem_map.mpr ⟨t, ht, rfl⟩, (isFailure_runTask t).mpr (by rw [he]; simp)⟩, ?_⟩
      simp [runTask, he, describeFailure]
    obtain ⟨pre, post, hp⟩ := intercalate_mem ", " _ _ hmem
    exact ⟨"Failed to process tasks: " ++ pre, post, by
      rw [hp]; simp only [String.append_assoc]⟩
  · intro imagePath outputDir enabled ops h1 h2 h3
    simp only [processImage, h1, h2, h3, or_self, if_false]

/-- Settling a promise outside a closed set `D` changes no call in `D` and keeps
`D` closed. -/
theorem settle_closed (D : List Nat) :
    ∀ (fuel : Nat) (ws : List Worker) (q : Nat), q ∉ D → Closed D ws →
      (∀ i ∈ D, (settle fuel ws q).1[i]? = ws[i]?) ∧ Closed D (settle fuel ws q).1 := by
  intro fuel
  induction fuel with
  | zero => intro ws q _ h; exact ⟨fun _ _ => rfl, h⟩
  | succ n ih =>
    intro ws q hq h
    unfold settle
    rcases Option.eq_none_or_eq_some ws[q]? with hw | ⟨w, hw⟩
    · simp only [hw]
      exact ⟨fun _ _ => trivial, h⟩
    · simp only [hw]
      have hset : ∀ i ∈ D, (ws.set q w.markSettled)[i]? = ws[i]? := by
        intro i hi
        exact List.getElem?_set_ne (fun e : q = i => hq (by rw [e]; exact hi))
      have hcl : Closed D (ws.set q w.markSettled) := by
        intro i v q1 hv hp hq1
        by_cases hiq : q = i
        · subst hiq
          obtain ⟨hl, _⟩ := List.getElem?_eq_some_iff.mp hw
          rw [List.getElem?_set_self hl] at hv
          cases hv
          exact h q w q1 hw hp hq1
        · rw [List.getElem?_set_ne hiq] at hv
          exact h i v q1 hv hp hq1
      by_cases hs : w.settled = true
      · rw [if_pos hs]; exact ⟨fun _ _ => rfl, h⟩
      · rw [if_neg hs]
        rcases Option.eq_none_or_eq_some w.parent with hp | ⟨q1, hp⟩
        · rw [hp]; exact ⟨hset, hcl⟩
        · rw [hp]
          have hq1 : q1 ∉ D := fun hm => hq (h q w q1 hw hp hm)
          obtain ⟨a, b⟩ := ih (ws.set q w.markSettled) q1 hq1 hcl
          exact ⟨fun i hi => by rw [← hset i hi]; exact a i hi, b⟩

/-- The `while` loop of `startNextTask` only appends calls made by `processWithPool`. -/
theorem spawnLoop_workers (cfg : Config) (imageFiles : List String) :
    ∀ (fuel : Nat) (s : Pool), ∃ extra,
      (spawnLoop cfg imageFiles fuel s).workers = s.workers ++ extra ∧
      ∀ w ∈ extra, w.parent = none := by
  intro fuel
  induction fuel with
  | zero => intro s; exact ⟨[], by simp [spawnLoop], by simp⟩
  | succ n ih =>
    intro s
    unfold spawnLoop
    by_cases hc : s.activeWorkers < cfg.MAX_WORKERS ∧ s.currentIndex < imageFiles.length
    · rw [if_pos hc]
      rcases Option.eq_none_or_eq_some imageFiles[s.currentIndex]? with hf | ⟨file, hf⟩
      · simp only [hf]; exact ⟨[], by simp, by simp⟩
      · simp only [hf]
        obtain ⟨extra, h1, h2⟩ := ih
          { s with
            currentIndex := s.currentIndex + 1
            activeWorkers := s.activeWorkers + 1
            workers := runWorker s.workers s.currentIndex file 1 none
            incLog := s.incLog ++ [s.currentIndex] }
        refine ⟨{ job := s.currentIndex, filename := file, attempt := 1, parent := none,
                  timer := .armed, terminated := false, exited := false, settled := false }
                :: extra, ?_, ?_⟩
        · rw [h1]
          show runWorker s.workers s.currentIndex file 1 none ++ extra = _
          simp only [runWorker, List.append_assoc, List.singleton_append]
        · intro w hw
          rcases List.mem_cons.mp hw with hw | hw
          · rw [hw]
          · exact h2 w hw
    · rw [if_neg hc]; exact ⟨[], by simp, by simp⟩

theorem startNextTask_workers (cfg : Config) (imageFiles : List String) (s : Pool) :
    ∃ extra, (startNextTask cfg imageFiles s).workers = s.workers ++ extra ∧
      ∀ w ∈ extra, w.parent = none := by
  unfold startNextTask
  by_cases hc : imageFiles.length ≤ s.currentIndex ∧ s.activeWorkers = 0
  · rw [if_pos hc]; exact ⟨[], by simp, by simp⟩
  · rw [if_neg hc]; exact spawnLoop_workers cfg imageFiles _ s

/-- Appending calls that are not retries of a call in `D` keeps the records of
`D` and keeps `D` closed. -/
theorem closed_append (D : List Nat) (ws extra : List Worker) (h : Closed D ws)
    (hx : ∀ w ∈ extra, ∀ q, w.parent = some q → q ∉ D) :
    (∀ (i : Nat) (w : Worker), ws[i]? = some w → (ws ++ extra)[i]? = some w) ∧
    Closed D (ws ++ extra) := by
  constructor
  · intro i w hw
    obtain ⟨hl, _⟩ := List.getElem?_eq_some_iff.mp hw
    rw [List.getElem?_append_left hl]; exact hw
  · intro i v q hv hp hq
    by_cases hi : i < ws.length
    · rw [List.getElem?_append_left hi] at hv
      exact h i v q hv hp hq
    · rw [List.getElem?_append_right (Nat.le_of_not_lt hi)] at hv
      exact absurd hq (hx v (List.getElem?_mem hv) q hp)

/-- Resolving or rejecting a call outside `D` keeps `D` dead. -/
theorem dead_applySettle (cfg : Config) (imageFiles : List String) (s : Pool)
    (D : List (Nat × Worker)) (q : Nat) (v : Settlement) (hq : q ∉ D.map Prod.fst)
    (h : Dead D s) : Dead D (applySettle cfg imageFiles s q v) := by
  obtain ⟨h1, h2, h3⟩ := h
  obtain ⟨a, b⟩ := settle_closed (D.map Prod.fst) (q + 1) s.workers q hq h2
  have hrec : ∀ d ∈ D, (settle (q + 1) s.workers q).1[d.1]? = some d.2 := by
    intro d hd
    rw [a d.1 (List.mem_map_of_mem Prod.fst hd)]
    exact h1 d hd
  have key : ∀ s1 : Pool, s1.workers = (settle (q + 1) s.workers q).1 →
      s1.retryTimers = s.retryTimers → Dead D (startNextTask cfg imageFiles s1) := by
    intro s1 e1 e2
    obtain ⟨extra, x1, x2⟩ := startNextTask_workers cfg imageFiles s1
    obtain ⟨c, d⟩ := closed_append (D.map Prod.fst) _ extra b
      (fun w hw q1 hp => by rw [x2 w hw] at hp; cases hp)
    refine ⟨?_, ?_, ?_⟩
    · intro d1 hd1
      rw [x1, e1]
      exact c d1.1 d1.2 (hrec d1 hd1)
    · rw [x1, e1]; exact d
    · rw [(startNextTask_frame cfg imageFiles s1).2.2, e2]; exact h3
  unfold applySettle
  rcases hst : settle (q + 1) s.workers q with ⟨ws1, r⟩
  rw [hst] at hrec b key
  cases r with
  | none => exact ⟨hrec, b, h3⟩
  | some root =>
    cases v with
    | fulfilled data => exact key _ rfl rfl
    | rejected err => exact key _ rfl rfl

theorem dead_applyRetryStep (cfg : Config) (imageFiles : List String) (s : Pool)
    (D : List (Nat × Worker)) (q : Nat) (r : RetryStep) (hq : q ∉ D.map Prod.fst)
    (h : Dead D s) : Dead D (applyRetryStep cfg imageFiles s q r) := by
  cases r with
  | retry attempt delay =>
    obtain ⟨h1, h2, h3⟩ := h
    refine ⟨h1, h2, ?_⟩
    intro t ht hp
    rcases List.mem_append.mp ht with ht | ht
    · exact h3 t ht hp
    · simp only [List.mem_singleton] at ht
      rw [ht] at hp
      exact absurd hp hq
  | reject err => exact dead_applySettle cfg imageFiles s D q _ hq h

/-- Changing a record outside `D` without touching its `parent` keeps `D` dead. -/
theorem dead_setWorker (s : Pool) (D : List (Nat × Worker)) (q : Nat) (w w1 : Worker)
    (hq : q ∉ D.map Prod.fst) (hw : s.workers[q]? = some w) (hp : w1.parent = w.parent)
    (h : Dead D s) : Dead D { s with workers := s.workers.set q w1 } := by
  obtain ⟨h1, h2, h3⟩ := h
  refine ⟨?_, ?_, h3⟩
  · intro d hd
    show (s.workers.set q w1)[d.1]? = some d.2
    rw [List.getElem?_set_ne (fun e : q = d.1 =>
      hq (by rw [e]; exact List.mem_map_of_mem Prod.fst hd))]
    exact h1 d hd
  · intro i v q1 hv hpv hq1
    by_cases hiq : q = i
    · subst hiq
      obtain ⟨hl, _⟩ := List.getElem?_eq_some_iff.mp hw
      have hv2 : (s.workers.set q w1)[q]? = some v := hv
      rw [List.getElem?_set_self hl] at hv2
      cases hv2
      exact h2 q w q1 hw (by rw [← hp]; exact hpv) hq1
    · have hv2 : (s.workers.set q w1)[i]? = some v := hv
      rw [List.getElem?_set_ne hiq] at hv2
      exact h2 i v q1 hv2 hpv hq1

/-- A member of `D` holds the record listed for it. -/
theorem dead_record (s : Pool) (D : List (Nat × Worker)) (q : Nat) (w : Worker)
    (h : Dead D s) (hq : q ∈ D.map Prod.fst) (hw : s.workers[q]? = some w) : (q, w) ∈ D := by
  obtain ⟨d, hd, rfl⟩ := List.mem_map.mp hq
  have := h.1 d hd
  rw [hw] at this
  cases this
  exact hd

/-- A set of calls that have exited, whose timers are not armed, with no retry
pending or running outside the set, stays so, with the same records, whatever
happens next. -/
theorem dead_step (cfg : Config) (imageFiles : List String) (s : Pool)
    (D : List (Nat × Worker)) (hstat : ∀ d ∈ D, d.2.exited = true ∧ d.2.timer ≠ .armed)
    (h : Dead D s) (e : Event) : Dead D (step cfg imageFiles s e) := by
  cases e with
  | message q data =>
    simp only [step]
    rcases Option.eq_none_or_eq_some s.workers[q]? with hw | ⟨w, hw⟩
    · simp only [hw]; exact h
    · simp only [hw]
      by_cases hex : w.exited = true
      · rw [if_pos hex]; exact h
      · rw [if_neg hex]
        have hq : q ∉ D.map Prod.fst :=
          fun hm => hex (hstat _ (dead_record s D q w h hm hw)).1
        exact dead_applySettle cfg imageFiles _ D q _ hq
          (dead_setWorker s D q w { w with timer := w.timer.clear } hq hw rfl h)
  | error q message =>
    simp only [step]
    rcases Option.eq_none_or_eq_some s.workers[q]? with hw | ⟨w, hw⟩
    · simp only [hw]; exact h
    · simp only [hw]
      by_cases hex : w.exited = true
      · rw [if_pos hex]; exact h
      · rw [if_neg hex]
        have hq : q ∉ D.map Prod.fst :=
          fun hm => hex (hstat _ (dead_record s D q w h hm hw)).1
        exact dead_applyRetryStep cfg imageFiles _ D q _ hq
          (dead_setWorker s D q w { w with timer := w.timer.clear } hq hw rfl h)
  | exit q code =>
    simp only [step]
    rcases Option.eq_none_or_eq_some s.workers[q]? with hw | ⟨w, hw⟩
    · simp only [hw]; exact h
    · simp only [hw]
      by_cases hex : w.exited = true
      · rw [if_pos hex]; exact h
      · rw [if_neg hex]
        have hq : q ∉ D.map Prod.fst :=
          fun hm => hex (hstat _ (dead_record s D q w h hm hw)).1
        rcases Option.eq_none_or_eq_some (exitHandler cfg w.filename w.attempt code)
          with hr | ⟨r, hr⟩
        · simp only [hr]
          exact dead_setWorker s D q w { w with timer := w.timer.clear, exited := true }
            hq hw rfl h
        · simp only [hr]
          exact dead_applyRetryStep cfg imageFiles _ D q _ hq
            (dead_setWorker s D q w { w with timer := w.timer.clear, exited := true }
              hq hw rfl h)
  | timeout q =>
    simp only [step]
    rcases Option.eq_none_or_eq_some s.workers[q]? with hw | ⟨w, hw⟩
    · simp only [hw]; exact h
    · simp only [hw]
      by_cases har : w.timer = Timer.armed
      · rw [if_pos har]
        have hq : q ∉ D.map Prod.fst :=
          fun hm => (hstat _ (dead_record s D q w h hm hw)).2 har
        exact dead_applyRetryStep cfg imageFiles _ D q _ hq
          (dead_setWorker s D q w { w with timer := .fired, terminated := true }
            hq hw rfl h)
      · rw [if_neg har]; exact h
  | retryDelay i =>
    simp only [step]
    rcases Option.eq_none_or_eq_some s.retryTimers[i]? with hti | ⟨t, hti⟩
    · simp only [hti]; exact h
    · simp only [hti]
      by_cases hf : t.fired = true
      · rw [if_pos hf]; exact h
      · rw [if_neg hf]
        rcases Option.eq_none_or_eq_some s.workers[t.parent]? with hw | ⟨pw, hw⟩
        · simp only [hw]; exact h
        · simp only [hw]
          obtain ⟨h1, h2, h3⟩ := h
          have htp : t.parent ∉ D.map Prod.fst :=
            fun hm => hf (h3 t (List.getElem?_mem hti) hm)
          obtain ⟨c, d⟩ := closed_append (D.map Prod.fst) s.workers
            [{ job := pw.job, filename := pw.filename, attempt := t.attempt,
               parent := some t.parent, timer := .armed, terminated := false,
               exited := false, settled := false }] h2
            (fun v hv q1 hp => by
              simp only [List.mem_singleton] at hv
              rw [hv] at hp
              cases hp
              exact htp)
          refine ⟨fun d1 hd1 => c d1.1 d1.2 (h1 d1 hd1), d, ?_⟩
          intro u hu hp
          rcases List.mem_or_eq_of_mem_set hu with hu | hu
          · exact h3 u hu hp
          · rw [hu]

theorem dead_foldl (cfg : Config) (imageFiles : List String) (D : List (Nat × Worker))
    (hstat : ∀ d ∈ D, d.2.exited = true ∧ d.2.timer ≠ .armed) (es : List Event) :
    ∀ s : Pool, Dead D s → Dead D (es.foldl (step cfg imageFiles) s) := by
  induction es with
  | nil => intro s h; exact h
  | cons e es ih => intro s h; exact ih _ (dead_step cfg imageFiles s D hstat h e)

/-- The pool-level calls of a job are the settled ones plus the unsettled ones. -/
theorem rootOf_split (ws : List Worker) (j : Nat) :
    ws.countP (Worker.rootOf j)
      = ws.countP (Worker.doneOf j)
        + ws.countP (fun w => Worker.active w && decide (w.job = j)) := by
  induction ws with
  | nil => rfl
  | cons w ws ih =>
    simp only [List.countP_cons, ih]
    have : (if Worker.rootOf j w = true then 1 else 0)
        = (if Worker.doneOf j w = true then 1 else 0)
          + (if (Worker.active w && decide (w.job = j)) = true then 1 else 0) := by
      simp only [Worker.rootOf, Worker.doneOf, Worker.active]
      rcases Option.eq_none_or_eq_some w.parent with hp | ⟨q, hp⟩ <;>
        rcases Bool.eq_false_or_eq_true w.settled with hs | hs <;>
        by_cases hj : w.job = j <;> simp [hp, hs, hj]
    omega

/-- An `exit` event with code 0 only cancels the timer and marks the worker exited. -/
theorem step_exit_zero (cfg : Config) (imageFiles : List String) (s : Pool) (p : Nat)
    (w : Worker) (hw : s.workers[p]? = some w) (hx : w.exited = false) :
    step cfg imageFiles s (.exit p 0)
      = { s with workers := s.workers.set p { w with timer := w.timer.clear, exited := true } } := by
  simp only [step, hw]
  rw [if_neg (by simp [hx])]
  have : exitHandler cfg w.filename w.attempt 0 = none := by simp [exitHandler]
  simp only [this]

theorem run_append (cfg : Config) (imageFiles : List String) (es1 es2 : List Event) :
    run cfg imageFiles (es1 ++ es2) = es2.foldl (step cfg imageFiles) (run cfg imageFiles es1) := by
  simp only [run, List.foldl_append]

theorem clear_ne_armed (t : Timer) : t.clear ≠ .armed := by
  cases t <;> simp [Timer.clear]

/-- C14, amended (stuck job on a silent clean exit, when no other retry is
running or pending): let worker `p` be alive and its promise unsettled, let `D`
list the earlier attempts it descends from, all exited with their timers not
armed, such that no other worker is a retry of any of them or of `p` and no
retry timer of theirs is pending, and let the job's own `runWorker` call `r` be
among them, unsettled.  When `p` emits `exit` with code 0, its timer is
cancelled and its promise stays unsettled, and after any further events
whatever the promise of `p` is still unsettled, the job has no entry in
`results` or `errors`, `activeWorkers--` has not run for it, `activeWorkers` is
still positive and `processWithPool` has not resolved. -/
theorem stuck_after_silent_exit (cfg : Config) (imageFiles : List String)
    (es1 es2 : List Event) (p : Nat) (w : Worker) (D : List (Nat × Worker))
    (r : Nat) (rootw : Worker)
    (hw : (run cfg imageFiles es1).workers[p]? = some w)
    (hx : w.exited = false) (hs : w.settled = false)
    (hD : ∀ d ∈ D, (run cfg imageFiles es1).workers[d.1]? = some d.2 ∧
      d.2.exited = true ∧ d.2.timer ≠ .armed)
    (hclosed : ∀ iv ∈ (run cfg imageFiles es1).workers.enum, ∀ q ∈ p :: D.map Prod.fst,
      iv.2.parent = some q → iv.1 ∈ p :: D.map Prod.fst)
    (htimers : ∀ t ∈ (run cfg imageFiles es1).retryTimers,
      t.parent ∈ p :: D.map Prod.fst → t.fired = true)
    (hroot : (r, rootw) ∈ (p, w) :: D) (hrp : rootw.parent = none) (hrs : rootw.settled = false) :
    (run cfg imageFiles (es1 ++ [.exit p 0])).workers[p]?
      = some { w with timer := w.timer.clear, exited := true } ∧
    w.timer.clear ≠ .armed ∧
    (run cfg imageFiles (es1 ++ [.exit p 0])).retryTimers
      = (run cfg imageFiles es1).retryTimers ∧
    (run cfg imageFiles (es1 ++ [.exit p 0] ++ es2)).workers[p]?
      = some { w with timer := w.timer.clear, exited := true } ∧
    (run cfg imageFiles (es1 ++ [.exit p 0] ++ es2)).entries rootw.job = 0 ∧
    (run cfg imageFiles (es1 ++ [.exit p 0] ++ es2)).decLog.count rootw.job = 0 ∧
    1 ≤ (run cfg imageFiles (es1 ++ [.exit p 0] ++ es2)).activeWorkers ∧
    (run cfg imageFiles (es1 ++ [.exit p 0] ++ es2)).resolved = none ∧
    (run cfg imageFiles (es1 ++ [.exit p 0] ++ es2)).resolveCalls = 0 := by
  obtain ⟨hl, _⟩ := List.getElem?_eq_some_iff.mp hw
  have hstep : run cfg imageFiles (es1 ++ [.exit p 0])
      = { run cfg imageFiles es1 with
          workers := (run cfg imageFiles es1).workers.set p
            { w with timer := w.timer.clear, exited := true } } := by
    rw [run_append]
    exact step_exit_zero cfg imageFiles _ p w hw hx
  have hpD : p ∉ D.map Prod.fst := by
    intro hm
    obtain ⟨d, hd, hd1⟩ := List.mem_map.mp hm
    have := (hD d hd).1
    rw [hd1, hw] at this
    cases this
    have := (hD d hd).2.1
    rw [hx] at this
    cases this
  have hdead : Dead ((p, { w with timer := w.timer.clear, exited := true }) :: D)
      (run cfg imageFiles (es1 ++ [.exit p 0])) := by
    rw [hstep]
    refine ⟨?_, ?_, ?_⟩
    · intro d hd
      rcases List.mem_cons.mp hd with hd | hd
      · rw [hd]
        exact List.getElem?_set_self hl
      · show ((run cfg imageFiles es1).workers.set p _)[d.1]? = some d.2
        rw [List.getElem?_set_ne (fun e : p = d.1 =>
          hpD (by rw [e]; exact List.mem_map_of_mem Prod.fst hd))]
        exact (hD d hd).1
    · intro i v q hv hpv hq
      by_cases hip : p = i
      · rw [← hip]; simp
      · have hv2 : ((run cfg imageFiles es1).workers.set p
            { w with timer := w.timer.clear, exited := true })[i]? = some v := hv
        rw [List.getElem?_set_ne hip] at hv2
        have hm : (i, v) ∈ (run cfg imageFiles es1).workers.enum :=
          List.mk_mem_enum_iff_getElem?.mpr hv2
        have hq2 : q ∈ p :: D.map Prod.fst := by simpa using hq
        have := hclosed (i, v) hm q hq2 hpv
        simpa using this
    · intro t ht hp
      exact htimers t ht (by simpa using hp)
  have hstat : ∀ d ∈ (p, { w with timer := w.timer.clear, exited := true }) :: D,
      d.2.exited = true ∧ d.2.timer ≠ .armed := by
    intro d hd
    rcases List.mem_cons.mp hd with hd | hd
    · rw [hd]; exact ⟨rfl, clear_ne_armed w.timer⟩
    · exact (hD d hd).2
  have hfinal : Dead ((p, { w with timer := w.timer.clear, exited := true }) :: D)
      (run cfg imageFiles (es1 ++ [.exit p 0] ++ es2)) := by
    rw [run_append cfg imageFiles (es1 ++ [Event.exit p 0]) es2]
    exact dead_foldl cfg imageFiles _ hstat es2 _ hdead
  obtain ⟨root, hrmem, hrpar, hrset, hrjob⟩ :
      ∃ root : Worker, (r, root) ∈ (p, { w with timer := w.timer.clear, exited := true }) :: D ∧
        root.parent = none ∧ root.settled = false ∧ root.job = rootw.job := by
    rcases List.mem_cons.mp hroot with h | h
    · cases h
      exact ⟨_, List.mem_cons_self _ _, hrp, hrs, rfl⟩
    · exact ⟨rootw, List.mem_cons_of_mem _ h, hrp, hrs, rfl⟩
  have hrw : (run cfg imageFiles (es1 ++ [.exit p 0] ++ es2)).workers[r]? = some root :=
    hfinal.1 (r, root) hrmem
  obtain ⟨hC, hO⟩ := inv_run cfg imageFiles (es1 ++ [.exit p 0] ++ es2)
  have hact : 0 < (run cfg imageFiles (es1 ++ [.exit p 0] ++ es2)).workers.countP
      Worker.active := by
    rw [List.countP_pos_iff]
    exact ⟨root, List.getElem?_mem hrw, by simp [Worker.active, hrpar, hrset]⟩
  have hactj : 0 < (run cfg imageFiles (es1 ++ [.exit p 0] ++ es2)).workers.countP
      (fun v => Worker.active v && decide (v.job = rootw.job)) := by
    rw [List.countP_pos_iff]
    exact ⟨root, List.getElem?_mem hrw, by simp [Worker.active, hrpar, hrset, hrjob]⟩
  have hpos : 1 ≤ (run cfg imageFiles (es1 ++ [.exit p 0] ++ es2)).activeWorkers := by
    rw [hC.active_eq]; omega
  have hent : (run cfg imageFiles (es1 ++ [.exit p 0] ++ es2)).entries rootw.job = 0 := by
    rw [hC.entries rootw.job]
    have h1 := rootOf_split (run cfg imageFiles (es1 ++ [.exit p 0] ++ es2)).workers rootw.job
    have h2 := hC.roots rootw.job
    split at h2 <;> omega
  refine ⟨?_, clear_ne_armed w.timer, by rw [hstep], hfinal.1 _ (List.mem_cons_self _ _), hent,
    by rw [hC.decs rootw.job, hent], hpos, ?_, ?_⟩
  · rw [hstep]
    exact List.getElem?_set_self hl
  · rcases hO with hO | hO
    · exact hO.2.1
    · have := hO.2.2.2; omega
  · rcases hO with hO | hO
    · exact hO.1
    · have := hO.2.2.2; omega

theorem stuck_after_silent_exit_witness :
    ((run (defaultConfig 1) ["a.jpg", "b.jpg"] [.exit 0 1, .retryDelay 0]).workers[1]?
      = some { job := 0, filename := "a.jpg", attempt := 2, parent := some 0, timer := .armed, terminated := false, exited := false, settled := false } ∧
    (∀ d ∈ ([((0 : Nat), ({ job := 0, filename := "a.jpg", attempt := 1, parent := none, timer := .cleared, terminated := false, exited := true, settled := false } : Worker))] : List (Nat × Worker)),
      (run (defaultConfig 1) ["a.jpg", "b.jpg"] [.exit 0 1, .retryDelay 0]).workers[d.1]? = some d.2 ∧
        d.2.exited = true ∧ d.2.timer ≠ .armed) ∧
    (∀ iv ∈ (run (defaultConfig 1) ["a.jpg", "b.jpg"] [.exit 0 1, .retryDelay 0]).workers.enum,
      ∀ q ∈ [1, 0], iv.2.parent = some q → iv.1 ∈ [1, 0]) ∧
    (∀ t ∈ (run (defaultConfig 1) ["a.jpg", "b.jpg"] [.exit 0 1, .retryDelay 0]).retryTimers,
      t.parent ∈ [1, 0] → t.fired = true)) ∧
    ((run (defaultConfig 1) ["a.jpg", "b.jpg"]
      ([.exit 0 1, .retryDelay 0] ++ [.exit 1 0])).workers[1]?
      = some { job := 0, filename := "a.jpg", attempt := 2, parent := some 0, timer := .cleared, terminated := false, exited := true, settled := false } ∧
    Timer.clear .armed ≠ .armed ∧
    (run (defaultConfig 1) ["a.jpg", "b.jpg"]
      ([.exit 0 1, .retryDelay 0] ++ [.exit 1 0])).retryTimers
      = (run (defaultConfig 1) ["a.jpg", "b.jpg"] [.exit 0 1, .retryDelay 0]).retryTimers ∧
    (run (defaultConfig 1) ["a.jpg", "b.jpg"]
      ([.exit 0 1, .retryDelay 0] ++ [.exit 1 0]
        ++ [.timeout 1, .message 1 (successMessage "a.jpg"), .retryDelay 0, .exit 1 1])).workers[1]?
      = some { job := 0, filename := "a.jpg", attempt := 2, parent := some 0, timer := .cleared, terminated := false, exited := true, settled := false } ∧
    (run (defaultConfig 1) ["a.jpg", "b.jpg"]
      ([.exit 0 1, .retryDelay 0] ++ [.exit 1 0]
        ++ [.timeout 1, .message 1 (successMessage "a.jpg"), .retryDelay 0, .exit 1 1])).entries 0 = 0 ∧
    (run (defaultConfig 1) ["a.jpg", "b.jpg"]
      ([.exit 0 1, .retryDelay 0] ++ [.exit 1 0]
        ++ [.timeout 1, .message 1 (successMessage "a.jpg"), .retryDelay 0, .exit 1 1])).decLog.count 0 = 0 ∧
    1 ≤ (run (defaultConfig 1) ["a.jpg", "b.jpg"]
      ([.exit 0 1, .retryDelay 0] ++ [.exit 1 0]
        ++ [.timeout 1, .message 1 (successMessage "a.jpg"), .retryDelay 0, .exit 1 1])).activeWorkers ∧
    (run (defaultConfig 1) ["a.jpg", "b.jpg"]
      ([.exit 0 1, .retryDelay 0] ++ [.exit 1 0]
        ++ [.timeout 1, .message 1 (successMessage "a.jpg"), .retryDelay 0, .exit 1 1])).resolved = none ∧
    (run (defaultConfig 1) ["a.jpg", "b.jpg"]
      ([.exit 0 1, .retryDelay 0] ++ [.exit 1 0]
        ++ [.timeout 1, .message 1 (successMessage "a.jpg"), .retryDelay 0, .exit 1 1])).resolveCalls = 0) :=
  ⟨⟨by rfl, by decide, by decide, by decide⟩,
    stuck_after_silent_exit (defaultConfig 1) ["a.jpg", "b.jpg"] [.exit 0 1, .retryDelay 0]
      [.timeout 1, .message 1 (successMessage "a.jpg"), .retryDelay 0, .exit 1 1] 1
      { job := 0, filename := "a.jpg", attempt := 2, parent := some 0, timer := .armed, terminated := false, exited := false, settled := false }
      [((0 : Nat), ({ job := 0, filename := "a.jpg", attempt := 1, parent := none, timer := .cleared, terminated := false, exited := true, settled := false } : Worker))] 0
      { job := 0, filename := "a.jpg", attempt := 1, parent := none, timer := .cleared, terminated := false, exited := true, settled := false }
      (by rfl) rfl rfl (by decide) (by decide) (by decide) (by decide) rfl rfl⟩

/-- C6 (results holds only successes), evaluated at the failing input: the image
cannot be read, so `processImage` posts its failure message (`success: false`)
and exits with code 1.  The message resolves the job's promise: the failure is
pushed to `results`, `errors` stays empty and the pool resolves with it; the
`exit` handler then still schedules a retry, and the success that attempt
reports is dropped. -/
theorem failure_message_recorded_as_result :
    processImage "input-images/corrupt.jpg" "corrupt.jpg" "multi-threaded-output"
        (some "Could not find MIME for Buffer") defaultTransformations (fun _ => .ok) 10
      = { posted := [failureMessage "corrupt.jpg" "Could not find MIME for Buffer"],
          exitCode := 1 } ∧
    (failureMessage "corrupt.jpg" "Could not find MIME for Buffer").success = false ∧
    (run (defaultConfig 1) ["corrupt.jpg"]
        [.message 0 (failureMessage "corrupt.jpg" "Could not find MIME for Buffer")]).results
      = [{ job := 0, data := failureMessage "corrupt.jpg" "Could not find MIME for Buffer" }] ∧
    (run (defaultConfig 1) ["corrupt.jpg"]
        [.message 0 (failureMessage "corrupt.jpg" "Could not find MIME for Buffer")]).errors
      = [] ∧
    (run (defaultConfig 1) ["corrupt.jpg"]
        [.message 0 (failureMessage "corrupt.jpg" "Could not find MIME for Buffer")]).resolved
      = some ([{ job := 0,
                 data := failureMessage "corrupt.jpg" "Could not find MIME for Buffer" }], []) ∧
    (run (defaultConfig 1) ["corrupt.jpg"]
        [.message 0 (failureMessage "corrupt.jpg" "Could not find MIME for Buffer"),
         .exit 0 1]).retryTimers
      = [{ parent := 0, attempt := 2, delay := 1000, fired := false }] ∧
    (run (defaultConfig 1) ["corrupt.jpg"]
        [.message 0 (failureMessage "corrupt.jpg" "Could not find MIME for Buffer"),
         .exit 0 1, .retryDelay 0, .message 1 (successMessage "corrupt.jpg"), .exit 1 0]).results
      = [{ job := 0, data := failureMessage "corrupt.jpg" "Could not find MIME for Buffer" }] ∧
    (run (defaultConfig 1) ["corrupt.jpg"]
        [.message 0 (failureMessage "corrupt.jpg" "Could not find MIME for Buffer"),
         .exit 0 1, .retryDelay 0, .message 1 (successMessage "corrupt.jpg"), .exit 1 0]).errors
      = [] := by
  refine ⟨?_, ?_, ?_, ?_, ?_, ?_, ?_, ?_⟩ <;> rfl

/-- C10 (batch-complete fires at most once), evaluated at the failing input: the
worker of the only job exits with code 0 without having posted a message.
`activeWorkers++` has run once for the job, `activeWorkers--` has not run and
does not run whatever that worker's timer or a late message does afterwards;
`activeWorkers` stays 1 and `resolve` is never called. -/
theorem decrement_missing_after_silent_exit :
    (run (defaultConfig 1) ["a.jpg"] [.exit 0 0]).incLog = [0] ∧
    (run (defaultConfig 1) ["a.jpg"] [.exit 0 0]).decLog = [] ∧
    (run (defaultConfig 1) ["a.jpg"] [.exit 0 0]).activeWorkers = 1 ∧
    (run (defaultConfig 1) ["a.jpg"] [.exit 0 0]).workers.map
        (fun w => (w.exited, w.timer, w.settled)) = [(true, Timer.cleared, false)] ∧
    (run (defaultConfig 1) ["a.jpg"] [.exit 0 0]).retryTimers = [] ∧
    (run (defaultConfig 1) ["a.jpg"]
        [.exit 0 0, .timeout 0, .message 0 (successMessage "a.jpg"), .error 0 "boom",
         .exit 0 1, .retryDelay 0]).incLog = [0] ∧
    (run (defaultConfig 1) ["a.jpg"]
        [.exit 0 0, .timeout 0, .message 0 (successMessage "a.jpg"), .error 0 "boom",
         .exit 0 1, .retryDelay 0]).decLog = [] ∧
    (run (defaultConfig 1) ["a.jpg"]
        [.exit 0 0, .timeout 0, .message 0 (successMessage "a.jpg"), .error 0 "boom",
         .exit 0 1, .retryDelay 0]).activeWorkers = 1 ∧
    (run (defaultConfig 1) ["a.jpg"]
        [.exit 0 0, .timeout 0, .message 0 (successMessage "a.jpg"), .error 0 "boom",
         .exit 0 1, .retryDelay 0]).resolveCalls = 0 := by
  refine ⟨?_, ?_, ?_, ?_, ?_, ?_, ?_, ?_, ?_⟩ <;> rfl

/-- C14 as stated fails: the first attempt throws (`error`, then `exit` with
code 1), so two retries are started; the first of them exits with code 0
without a message or an error, its timer is cancelled and its promise is never
settled, yet the message of its sibling settles the job: the job has an entry in
`results`, `activeWorkers--` has run for it and `processWithPool` has resolved. -/
theorem silent_exit_sibling_settles :
    (run (defaultConfig 1) ["a.jpg"]
        [.error 0 "boom", .exit 0 1, .retryDelay 0, .retryDelay 1, .exit 1 0]).workers.map
        (fun w => (w.attempt, w.parent, w.exited, w.timer, w.settled))
      = [(1, none, true, Timer.cleared, false), (2, some 0, true, Timer.cleared, false),
         (2, some 0, false, Timer.armed, false)] ∧
    (run (defaultConfig 1) ["a.jpg"]
        [.error 0 "boom", .exit 0 1, .retryDelay 0, .retryDelay 1, .exit 1 0,
         .message 2 (successMessage "a.jpg")]).workers.map
        (fun w => (w.attempt, w.settled)) = [(1, true), (2, false), (2, true)] ∧
    (run (defaultConfig 1) ["a.jpg"]
        [.error 0 "boom", .exit 0 1, .retryDelay 0, .retryDelay 1, .exit 1 0,
         .message 2 (successMessage "a.jpg")]).results
      = [{ job := 0, data := successMessage "a.jpg" }] ∧
    (run (defaultConfig 1) ["a.jpg"]
        [.error 0 "boom", .exit 0 1, .retryDelay 0, .retryDelay 1, .exit 1 0,
         .message 2 (successMessage "a.jpg")]).decLog = [0] ∧
    (run (defaultConfig 1) ["a.jpg"]
        [.error 0 "boom", .exit 0 1, .retryDelay 0, .retryDelay 1, .exit 1 0,
         .message 2 (successMessage "a.jpg")]).resolved
      = some ([{ job := 0, data := successMessage "a.jpg" }], []) := by
  refine ⟨?_, ?_, ?_, ?_, ?_⟩ <;> rfl

end ImageProcessor
